import Mathlib

/-! Verification development for the ValyrianGamesLeaderboard rating and
leaderboard consistency engine.

Shallow embedding conventions: numeric values that are Python floats (mu, sigma,
costs, throughput) are modelled as exact rationals; Python ints are Nat or Int;
Python dicts keyed by strings are association lists in insertion order; Python
lists are Lean lists; code paths that raise exceptions are modelled with
Except / Option.  Sources: app/utils/trueskill_calculator.py,
scripts/update_leaderboard.py, scripts/import_tournament_results.py. -/

/-- A stable insertion step: `x` is placed before the first element `y` for which
`before y x` is false (`before y x` reads: `y` stays before `x`). -/
def stableInsert (before : α → α → Bool) (x : α) : List α → List α
  | [] => [x]
  | y :: ys => if before y x then y :: stableInsert before x ys else x :: y :: ys

/-- Stable sort, the model of Python `sorted` / `list.sort`: for a total
transitive comparison, the stably sorted permutation is unique, so this
insertion sort is extensionally the sort used by the Python code. -/
def stableSort (before : α → α → Bool) (l : List α) : List α :=
  l.foldl (fun acc x => stableInsert before x acc) []

/-- One competitor's entry in the leaderboard `models` array
(canonical snapshot shape, trueskill_calculator.py lines 61-72). -/
structure ModelEntry where
  name : String
  mu : ℚ
  sigma : ℚ
  games_played : Nat
  wins : Nat
  losses : Nat
  draws : Nat
  conservative_rating : ℚ
  avg_total_cost : ℚ
  avg_tokens_per_second : ℚ
deriving DecidableEq

/-- The leaderboard snapshot: `{last_updated, models}`. -/
structure Leaderboard where
  last_updated : String
  models : List ModelEntry
deriving DecidableEq

/-- The per-model performance-metrics dict consumed by
`_update_performance_metrics` (trueskill_calculator.py lines 162-164): the two
keys are read with `.get(key, 0.0)`, so each is optional. -/
structure GameMetrics where
  total_cost : Option ℚ
  tokens_per_second : Option ℚ
deriving DecidableEq

/-- A game record as consumed by the engine.  The JSON dict's optional fields
are `Option`; `performance_metrics` is the
`additional_info.performance_metrics` mapping (a participant key that is absent
models both an absent key and an empty per-model dict, which the code treats
identically by returning early).  Presentation-only payload fields
(`description`, the rest of `additional_info`) are not consumed by the engine
and are omitted. -/
structure GameData where
  game_id : Option String
  date : Option String
  participants : Option (List String)
  ranks : Option (List Int)
  scores : Option (List Int)
  performance_metrics : List (String × GameMetrics)
deriving DecidableEq

/-- Default prior mean of `trueskill.TrueSkill().create_rating()`. -/
def defaultMu : ℚ := 25

/-- Default prior standard deviation of `create_rating()` (25/3). -/
def defaultSigma : ℚ := 25 / 3

/-- `next((m for m in leaderboard['models'] if m['name'] == model_name), None)`. -/
def findModel (ms : List ModelEntry) (name : String) : Option ModelEntry :=
  ms.find? (fun m => m.name = name)

/-- The fresh entry appended for an unseen competitor
(trueskill_calculator.py lines 61-72). -/
def defaultEntry (name : String) : ModelEntry :=
  { name := name
    mu := defaultMu
    sigma := defaultSigma
    games_played := 0
    wins := 0
    losses := 0
    draws := 0
    conservative_rating := defaultMu - 3 * defaultSigma
    avg_total_cost := 0
    avg_tokens_per_second := 0 }

/-- The fetch-or-create pass over `participants`
(trueskill_calculator.py lines 47-72): each unseen name gets a default entry
appended to `models`. -/
def createEntries (models : List ModelEntry) (participants : List String) : List ModelEntry :=
  participants.foldl
    (fun ms name => if ms.any (fun m => m.name = name) then ms else ms ++ [defaultEntry name])
    models

/-- The prior beliefs handed to the rating update, one `(mu, sigma)` team per
participant in order (trueskill_calculator.py lines 46-59 and 74-76); after
`createEntries` every participant has an entry, the default arm is dead code. -/
def teamsFor (ms : List ModelEntry) (participants : List String) : List (ℚ × ℚ) :=
  participants.map (fun name =>
    match findModel ms name with
    | some m => (m.mu, m.sigma)
    | none => (defaultMu, defaultSigma))

/-- Modelled from the spec: `self.env.rate(teams, ranks=ranks)` delegates the
Bayesian belief update to the external `trueskill` library, whose code is not
part of this repository.  Per spec section 4.1 the call returns one posterior
belief per participant in input order, is deterministic, and fails with
`InvalidInput` when the array lengths mismatch or any prior sigma is ≤ 0.  The
precise message-passing arithmetic (truncated-Gaussian corrections) is numeric
and is abstracted here by a deterministic update with the same interface
contract: same output length and order, sigma stays positive and never
increases. -/
def env_rate (teams : List (ℚ × ℚ)) (ranks : List Int) : Except String (List (ℚ × ℚ)) :=
  if teams.length != ranks.length then
    Except.error ("InvalidInput: rating groups and ranks lengths differ")
  else if teams.any (fun t => decide (t.2 ≤ 0)) then
    Except.error ("InvalidInput: sigma must be positive")
  else
    Except.ok ((teams.zip ranks).map (fun t => (t.1.1 + (1 - (t.2 : ℚ)), t.1.2 / 2)))

/-- In-place mutation of the first entry with the given name, the effect of
`model_entry = next(m for m in leaderboard['models'] if ...)` followed by field
assignments.  (On the empty list the Python `next` would raise; after
`createEntries` every looked-up name is present, so that branch is
unreachable.) -/
def updateFirst (f : ModelEntry → ModelEntry) (name : String) : List ModelEntry → List ModelEntry
  | [] => []
  | m :: ms => if m.name = name then f m :: ms else m :: updateFirst f name ms

/-- `_update_performance_metrics` (trueskill_calculator.py lines 140-175):
reads the per-model metrics dict; returns unchanged when it is absent/empty;
otherwise folds the new cost and speed samples into the running averages using
the entry's current `games_played` count. -/
def update_performance_metrics (e : ModelEntry) (name : String) (game : GameData) : ModelEntry :=
  match (game.performance_metrics.find? (fun x => x.1 = name)).map (fun x => x.2) with
  | none => e
  | some mm =>
    let current_avg_cost := e.avg_total_cost
    let current_avg_speed := e.avg_tokens_per_second
    let games_played := e.games_played
    let new_cost := mm.total_cost.getD 0
    let new_speed := mm.tokens_per_second.getD 0
    if games_played = 0 then
      { e with avg_total_cost := new_cost, avg_tokens_per_second := new_speed }
    else
      { e with
        avg_total_cost := (current_avg_cost * games_played + new_cost) / (games_played + 1)
        avg_tokens_per_second := (current_avg_speed * games_played + new_speed) / (games_played + 1) }

/-- The body of the per-participant update loop
(trueskill_calculator.py lines 82-107) applied to one entry: write the new
rating, bump `games_played`, accumulate the win/loss/draw deltas computed from
the full `ranks` list, recompute the conservative rating from the new rating,
then fold in the performance metrics.  `i` is the loop index of this
participant and `rank = ranks[i]`; note the equal-ranks filter compares
`ranks.index(r)`, the index of the FIRST occurrence of the value `r`, with
`i`. -/
def applyGameToEntry (ranks : List Int) (i : Nat) (rank : Int) (nr : ℚ × ℚ)
    (game : GameData) (name : String) (e : ModelEntry) : ModelEntry :=
  let e1 := { e with mu := nr.1, sigma := nr.2, games_played := e.games_played + 1 }
  let better_ranks := ranks.countP (fun r => decide (r < rank))
  let worse_ranks := ranks.countP (fun r => decide (rank < r))
  let equal_ranks := ranks.countP (fun r => r == rank && decide (ranks.indexOf r ≠ i))
  let e2 := { e1 with
    wins := e1.wins + worse_ranks
    losses := e1.losses + better_ranks
    draws := e1.draws + equal_ranks
    conservative_rating := nr.1 - 3 * nr.2 }
  update_performance_metrics e2 name game

/-- The update loop `for i, model_name in enumerate(participants)`
(trueskill_calculator.py lines 82-107): walks the participants and the
posterior ratings in lockstep, mutating each participant's entry in the models
list. -/
def update_loop (game : GameData) (ranks : List Int) :
    Nat → List String → List (ℚ × ℚ) → List ModelEntry → List ModelEntry
  | _, [], _, ms => ms
  | _, _ :: _, [], ms => ms
  | i, name :: names, nr :: nrs, ms =>
      update_loop game ranks (i + 1) names nrs
        (updateFirst (applyGameToEntry ranks i (ranks.getD i 0) nr game name) name ms)

/-- `leaderboard['models'].sort(key=lambda x: x.get('mu', 0), reverse=True)`:
stable descending sort by `mu`. -/
def sortByMuDesc (ms : List ModelEntry) : List ModelEntry :=
  stableSort (fun y x => decide (x.mu ≤ y.mu)) ms

/-- The pure part of `update_ratings_from_game`
(trueskill_calculator.py lines 38-110) on the models array: validate, fetch or
create entries, run the rating update, apply the per-participant statistics
loop, sort by mu descending.  The raised `ValueError` and the error raised
inside the rating call are the `Except.error` results. -/
def update_models (models : List ModelEntry) (game : GameData) :
    Except String (List ModelEntry) :=
  if (game.participants.getD []).isEmpty || (game.ranks.getD []).isEmpty ||
      (game.participants.getD []).length != (game.ranks.getD []).length then
    Except.error ("Invalid game data: participants and ranks must be non-empty and of equal length")
  else
    match env_rate (teamsFor (createEntries models (game.participants.getD []))
        (game.participants.getD [])) (game.ranks.getD []) with
    | Except.error e => Except.error e
    | Except.ok updated =>
        Except.ok (sortByMuDesc (update_loop game (game.ranks.getD []) 0
          (game.participants.getD []) updated (createEntries models (game.participants.getD []))))

/-- `update_ratings_from_game` (trueskill_calculator.py lines 25-118): on
success the snapshot carries the updated models and `last_updated` set to the
caller's clock reading (`datetime.now`), which is the only use of the clock. -/
def update_ratings_from_game (lb : Leaderboard) (game : GameData) (now : String) :
    Except String Leaderboard :=
  (update_models lb.models game).map (fun ms => { last_updated := now, models := ms })

/-- The persisted-store effect of one `update_ratings_from_game` call: the
leaderboard file is rewritten by `_save_leaderboard` only at the very end of a
successful call (line 116), so on an exception the persisted snapshot is the
old one. -/
def run_update_on_store (store : Leaderboard) (game : GameData) (now : String) : Leaderboard :=
  match update_ratings_from_game store game now with
  | Except.ok lb => lb
  | Except.error _ => store

/-- `validate_game_data` (update_leaderboard.py lines 38-59): requires the
`participants` and `ranks` fields and equal lengths.  (No other field —
in particular not `scores` — is examined.) -/
def validate_game_data (game : GameData) : Bool :=
  game.participants.isSome && game.ranks.isSome &&
    (game.participants.getD []).length == (game.ranks.getD []).length

/-- `games.sort(key=lambda x: x.get('date', ''))` (update_leaderboard.py line
137): stable ascending sort by the date string. -/
def sortByDate (games : List GameData) : List GameData :=
  stableSort (fun y x => decide ((y.date.getD ("")) ≤ (x.date.getD ("")))) games

/-- One iteration of the recalculation loop (update_leaderboard.py lines
163-172): skip records failing validation; on an update exception the file
state and the last successful result are left as they were. -/
def recalc_step (now : String) (st : Leaderboard × Option Leaderboard) (game : GameData) :
    Leaderboard × Option Leaderboard :=
  if validate_game_data game then
    match update_ratings_from_game st.1 game now with
    | Except.ok lb => (lb, some lb)
    | Except.error _ => st
  else st

/-- The leaderboard `_load_leaderboard` creates when the file does not exist
(trueskill_calculator.py lines 126-130). -/
def emptyLeaderboard (now : String) : Leaderboard :=
  { last_updated := now, models := [] }

/-- `recalculate_leaderboard` (update_leaderboard.py lines 141-177) composed
with the date sort of `load_all_games`: from the games on disk, return `none`
when there are none, else delete the leaderboard file (so the fold starts from
the empty snapshot) and fold every game in date order, skipping invalid records
and records whose update raised; the returned value is the result of the last
successful update, `none` when every record was skipped. -/
def recalculate_leaderboard (games : List GameData) (now : String) : Option Leaderboard :=
  if games.isEmpty then none
  else ((sortByDate games).foldl (recalc_step now) (emptyLeaderboard now, none)).2

/-- The rank-assignment loop of `calculate_ranks_from_scores`
(import_tournament_results.py lines 136-145): walk the (already sorted)
participant/score pairs with index `i`, previous score `prev` (unused at
`i = 0`) and running `current_rank`, bumping the rank to `i` exactly when the
score strictly drops. -/
def assignRanks : Nat → Int → Nat → List (String × Int) → List (String × Nat)
  | _, _, _, [] => []
  | i, prev, cur, (p, s) :: rest =>
    let cur1 := if 0 < i ∧ s < prev then i else cur
    (p, cur1) :: assignRanks (i + 1) s cur1 rest

/-- `sorted(final_scores.items(), key=lambda x: x[1], reverse=True)`:
stable descending sort of the score pairs. -/
def sortByScoreDesc (final_scores : List (String × Int)) : List (String × Int) :=
  stableSort (fun y x => decide (x.2 ≤ y.2)) final_scores

/-- `calculate_ranks_from_scores` (import_tournament_results.py lines 131-146):
scores to competition ranks, 0 = best.  The Python function returns a dict
keyed by participant in sorted order; this returns the association list in the
same order. -/
def calculate_ranks_from_scores (final_scores : List (String × Int)) : List (String × Nat) :=
  assignRanks 0 0 0 (sortByScoreDesc final_scores)

/-- Dict lookup `ranks[participant]` on the result of
`calculate_ranks_from_scores`. -/
def lookupRank (ranks : List (String × Nat)) (p : String) : Option Nat :=
  (ranks.find? (fun x => x.1 = p)).map (fun x => x.2)

/-- The `metrics` sub-dict of one detailed result
(import_tournament_results.py lines 165-174): `error` is the truthiness of
`metrics.get('error')`; the three numeric fields are read with defaults, so a
missing key is the value 0 here. -/
structure RMetrics where
  error : Bool
  total_tokens : ℚ
  total_cost : ℚ
  total_time : ℚ
deriving DecidableEq

/-- One entry of `detailed_results` as read by the aggregator
(import_tournament_results.py lines 162-185): `solver` and `challenge_creator`
default to the empty string, `is_correct` is
`result.get('result', {}).get('is_correct', False)`. -/
structure DetailedResult where
  solver : String
  challenge_creator : String
  metrics : RMetrics
  is_correct : Bool
deriving DecidableEq

/-- The per-participant aggregate record built by
`aggregate_performance_metrics` (import_tournament_results.py lines 151-160);
the three derived ratio fields are filled in by the final pass, defaulted to 0
here as the defaultdict factory leaves them absent. -/
structure PMetrics where
  total_tokens : ℚ := 0
  total_cost : ℚ := 0
  total_time : ℚ := 0
  total_attempts : Nat := 0
  successful_attempts : Nat := 0
  challenges_created : Nat := 0
  own_challenges_solved : Nat := 0
  others_challenges_solved : Nat := 0
  tokens_per_second : ℚ := 0
  tokens_per_dollar : ℚ := 0
  success_rate : ℚ := 0
deriving DecidableEq

/-- `participant_metrics[k]` access-and-mutate on the defaultdict: first access
appends a default record at the end (Python dict insertion order). -/
def updAssoc : List (String × PMetrics) → String → (PMetrics → PMetrics) →
    List (String × PMetrics)
  | [], k, f => [(k, f {})]
  | (k1, v) :: rest, k, f =>
    if k1 = k then (k1, f v) :: rest else (k1, v) :: updAssoc rest k f

/-- Dict lookup on the aggregated metrics. -/
def lookupPM (m : List (String × PMetrics)) (k : String) : Option PMetrics :=
  (m.find? (fun x => x.1 = k)).map (fun x => x.2)

/-- One iteration of the main aggregation loop
(import_tournament_results.py lines 162-185): results with an empty solver are
skipped; the token/cost/time sums skip results whose metrics carry an error
flag; every non-skipped result counts one attempt; correct results bump the
success counters, split by whether the solver authored the challenge. -/
def aggUpdate (r : DetailedResult) (pm0 : PMetrics) : PMetrics :=
  let pm1 :=
    if !r.metrics.error then
      { pm0 with
        total_tokens := pm0.total_tokens + r.metrics.total_tokens
        total_cost := pm0.total_cost + r.metrics.total_cost
        total_time := pm0.total_time + r.metrics.total_time }
    else pm0
  let pm2 := { pm1 with total_attempts := pm1.total_attempts + 1 }
  if r.is_correct then
    if r.solver = r.challenge_creator then
      { pm2 with
        successful_attempts := pm2.successful_attempts + 1
        own_challenges_solved := pm2.own_challenges_solved + 1 }
    else
      { pm2 with
        successful_attempts := pm2.successful_attempts + 1
        others_challenges_solved := pm2.others_challenges_solved + 1 }
  else pm2

/-- One iteration of the main aggregation loop made a step on the metrics map:
results with an empty solver are skipped, all others update the solver's
record with `aggUpdate`. -/
def aggStep (m : List (String × PMetrics)) (r : DetailedResult) : List (String × PMetrics) :=
  if r.solver = ("") then m
  else updAssoc m r.solver (aggUpdate r)

/-- The `creators` set (import_tournament_results.py lines 188-192), modelled
as the deduplicated list of non-empty creators in first-appearance order (set
iteration order is irrelevant: each member is processed exactly once). -/
def creatorsList (rs : List DetailedResult) : List String :=
  ((rs.map (fun r => r.challenge_creator)).filter (fun c => c ≠ (""))).dedup

/-- The derived-metrics pass (import_tournament_results.py lines 198-212):
ratios guarded by a strict positivity test on the denominator, 0 otherwise. -/
def deriveMetrics (pm : PMetrics) : PMetrics :=
  { pm with
    tokens_per_second := if 0 < pm.total_time then pm.total_tokens / pm.total_time else 0
    tokens_per_dollar := if 0 < pm.total_cost then pm.total_tokens / pm.total_cost else 0
    success_rate :=
      if 0 < pm.total_attempts then (pm.successful_attempts : ℚ) / (pm.total_attempts : ℚ)
      else 0 }

/-- `aggregate_performance_metrics` (import_tournament_results.py lines
149-214): main loop, then one `challenges_created` bump per distinct creator,
then the derived-metrics pass. -/
def aggregate_performance_metrics (detailed_results : List DetailedResult) :
    List (String × PMetrics) :=
  let m1 := detailed_results.foldl aggStep []
  let m2 := (creatorsList detailed_results).foldl
    (fun m c => updAssoc m c (fun pm => { pm with challenges_created := pm.challenges_created + 1 }))
    m1
  m2.map (fun x => (x.1, deriveMetrics x.2))

/-- The token/cost/time sum over a participant's non-erroneous attempts, the
specification value the aggregator is checked against. -/
def sumMetric (proj : RMetrics → ℚ) (p : String) (rs : List DetailedResult) : ℚ :=
  ((rs.filter (fun r => r.solver == p && !r.metrics.error)).map (fun r => proj r.metrics)).sum

/-- The `tournament_info` dict; only its `timestamp` key is consumed by the
core (validation and id generation). -/
structure TournamentInfo where
  timestamp : Option String
deriving DecidableEq

/-- A foreign tournament-results file as read by the ingestion adapter; the
three required top-level fields are optional at this level because validation
checks their presence.  `detailed_results` defaults to the empty list
(`tournament_data.get('detailed_results', [])`). -/
structure Tournament where
  tournament_info : Option TournamentInfo
  contenders : Option (List String)
  final_scores : Option (List (String × Int))
  detailed_results : List DetailedResult
deriving DecidableEq

/-- `validate_tournament_data` (import_tournament_results.py lines 90-128):
returns `(ok, errors)`; missing top-level fields short-circuit, otherwise every
discrepancy is collected. -/
def validate_tournament_data (t : Tournament) : Bool × List String :=
  let errs0 :=
    (if t.tournament_info.isNone then [("Missing required field: tournament_info")] else []) ++
    (if t.contenders.isNone then [("Missing required field: contenders")] else []) ++
    (if t.final_scores.isNone then [("Missing required field: final_scores")] else [])
  if !errs0.isEmpty then (false, errs0)
  else
    let info := t.tournament_info.getD { timestamp := none }
    let contenders := t.contenders.getD []
    let final_scores := t.final_scores.getD []
    let e1 := if info.timestamp.isNone then [("Missing timestamp in tournament_info")] else []
    let e2 := if contenders.isEmpty then [("No contenders found")] else []
    let e3 := if final_scores.isEmpty then [("No final scores found")] else []
    let missing := contenders.filter (fun c => (final_scores.find? (fun x => x.1 = c)).isNone)
    let e4 := if !missing.isEmpty then [("Missing scores for contenders")] else []
    let extra := (final_scores.map (fun x => x.1)).filter (fun p => !contenders.contains p)
    let e5 := if !extra.isEmpty then [("Scores found for non-contenders")] else []
    let errs := e1 ++ e2 ++ e3 ++ e4 ++ e5
    (errs.isEmpty, errs)

/-- Modelled from the spec: `Path(file).name` (Python stdlib, not repository
code) — the final path component. -/
def basename (p : String) : String :=
  (p.splitOn ("/")).getLastD p

/-- Modelled from the spec: `Path(file).stem` (Python stdlib, not repository
code) — the basename with its last extension stripped; a function of the
basename alone. -/
def stripExt (name : String) : String :=
  let parts := name.splitOn (".")
  if parts.length ≤ 1 then name else String.intercalate (".") (parts.dropLast)

/-- Modelled from the spec: the first 8 hex characters of
`hashlib.md5(name.encode()).hexdigest()` (Python stdlib, not repository code)
— a short content hash of the file name, abstracted by a deterministic 8-hex
digest of the string. -/
def md5hex8 (s : String) : String :=
  let n := s.toList.foldl (fun acc c => (acc * 131 + c.toNat) % (16 ^ 8)) 7
  let ds := Nat.toDigits 16 n
  String.mk (List.replicate (8 - ds.length) ('0') ++ ds)

/-- Modelled from the spec: `datetime.fromisoformat` followed by
`strftime('%Y%m%d_%H%M%S')` (Python stdlib, not repository code) — the contest
timestamp formatted to a fixed-precision string.  A string starting with an
ISO-8601 date-time `YYYY-MM-DDTHH:MM:SS` (a space separator is also accepted,
trailing fraction/offset ignored) formats to `YYYYMMDD_HHMMSS`; anything else
fails the parse. -/
def format_timestamp (ts : String) : Option String :=
  match ts.toList.take 19 with
  | [y1, y2, y3, y4, d1, o1, o2, d2, a1, a2, t, h1, h2, c1, n1, n2, c2, s1, s2] =>
    if [y1, y2, y3, y4, o1, o2, a1, a2, h1, h2, n1, n2, s1, s2].all Char.isDigit &&
        d1 == ('-') && d2 == ('-') && (t == ('T') || t == (' ')) && c1 == (':') && c2 == (':') then
      some (String.mk [y1, y2, y3, y4, o1, o2, a1, a2] ++ ("_") ++ String.mk [h1, h2, n1, n2, s1, s2])
    else none
  | _ => none

/-- `generate_game_id` (import_tournament_results.py lines 217-230): the
timestamp formatted to `valyrian_tournament_YYYYMMDD_HHMMSS` (falling back to
the source file's stem when the parse fails), suffixed with the short hash of
the source file's basename. -/
def generate_game_id (tournament_timestamp : String) (tournament_file : String) : String :=
  let base_id :=
    match format_timestamp (tournament_timestamp.replace ("Z") ("+00:00")) with
    | some s => ("valyrian_tournament_") ++ s
    | none => ("valyrian_tournament_") ++ stripExt (basename tournament_file)
  base_id ++ ("_") ++ md5hex8 (basename tournament_file)

/-- `convert_tournament_to_game_format` (import_tournament_results.py lines
286-358) restricted to the fields the engine consumes; a `KeyError` on a
missing dict key is a `none` result (the caller catches the exception).  The
presentation-only `description` and `additional_info` subfields other than
`performance_metrics` are omitted. -/
def convert_tournament_to_game_format (t : Tournament) (tournament_file : String) :
    Option GameData := do
  let info ← t.tournament_info
  let contenders ← t.contenders
  let final_scores ← t.final_scores
  let ts ← info.timestamp
  let game_id := generate_game_id ts tournament_file
  let timestamp := if !ts.endsWith ("Z") && !ts.contains ('+') then ts ++ ("Z") else ts
  let ranks_dict := calculate_ranks_from_scores final_scores
  let ranks ← contenders.mapM (fun p => lookupRank ranks_dict p)
  let scores ← contenders.mapM (fun p => (final_scores.find? (fun x => x.1 = p)).map (fun x => x.2))
  let pm := aggregate_performance_metrics t.detailed_results
  some
    { game_id := some game_id
      date := some timestamp
      participants := some contenders
      ranks := some (ranks.map (fun r => (r : Int)))
      scores := some scores
      performance_metrics :=
        pm.map (fun x => (x.1, { total_cost := some x.2.total_cost
                                 tokens_per_second := some x.2.tokens_per_second })) }

/-- The persistent state touched by the import script: the games directory
(keyed by game id, one file per record) and the leaderboard snapshot file. -/
structure Store where
  games : List (String × GameData)
  leaderboard : Leaderboard
deriving DecidableEq

/-- `check_game_exists` (import_tournament_results.py lines 361-364). -/
def check_game_exists (game_id : String) (games : List (String × GameData)) : Bool :=
  (games.find? (fun x => x.1 = game_id)).isSome

/-- Writing `data/games/{game_id}.json`: overwrites the record with that id if
present, otherwise adds it. -/
def save_game_file : List (String × GameData) → String → GameData → List (String × GameData)
  | [], gid, g => [(gid, g)]
  | (k, v) :: rest, gid, g =>
    if k = gid then (k, g) :: rest else (k, v) :: save_game_file rest gid g

/-- `import_tournament_to_leaderboard` (import_tournament_results.py lines
385-483) as a transition on the store: validation or conversion failure leaves
the store untouched; an existing game id without `force` is a reported no-op;
otherwise the game file is written first and the leaderboard update runs, whose
exception leaves the snapshot file unchanged (the game file stays written). -/
def import_tournament_to_leaderboard (t : Tournament) (tournament_file : String)
    (force : Bool) (now : String) (s : Store) : Store × Bool :=
  if !(validate_tournament_data t).1 then (s, false)
  else
    match convert_tournament_to_game_format t tournament_file with
    | none => (s, false)
    | some game =>
      match game.game_id with
      | none => (s, false)
      | some gid =>
        if check_game_exists gid s.games && !force then (s, true)
        else
          let games2 := save_game_file s.games gid game
          match update_ratings_from_game s.leaderboard game now with
          | Except.ok lb => ({ games := games2, leaderboard := lb }, true)
          | Except.error _ => ({ games := games2, leaderboard := s.leaderboard }, false)

/-- The prior sigma the rating update sees for a participant: the entry's
sigma when the name is on the leaderboard, the default prior otherwise. -/
def priorSigma (models : List ModelEntry) (name : String) : ℚ :=
  ((findModel models name).getD (defaultEntry name)).sigma

/-- Concrete 3-way game with ranks [0, 1, 1] (participants A, B, C). -/
def gameC1 : GameData :=
  { game_id := none, date := none, participants := some [("A"), ("B"), ("C")],
    ranks := some [0, 1, 1], scores := none, performance_metrics := [] }

/-- Concrete entry with two games played and an average cost of 10. -/
def entryC2 : ModelEntry :=
  { name := ("A"), mu := 25, sigma := 25 / 3, games_played := 2, wins := 0, losses := 0,
    draws := 0, conservative_rating := 0, avg_total_cost := 10, avg_tokens_per_second := 0 }

/-- Concrete game whose metrics carry a total cost of 16 for participant A. -/
def gameC2 : GameData :=
  { game_id := none, date := none, participants := some [("A"), ("B")],
    ranks := some [0, 1], scores := none,
    performance_metrics := [(("A"), { total_cost := some 16, tokens_per_second := none })] }

/-- Concrete record with a participants/ranks length mismatch. -/
def gameC5invalid : GameData :=
  { game_id := none, date := none, participants := some [("A")],
    ranks := some [0, 1], scores := none, performance_metrics := [] }

/-- Concrete two-participant game with ranks [0, 1]. -/
def gameC8 : GameData :=
  { game_id := none, date := none, participants := some [("A"), ("B")],
    ranks := some [0, 1], scores := none, performance_metrics := [] }

/-- Concrete leaderboard whose only entry has sigma 0. -/
def lbC6 : Leaderboard :=
  { last_updated := ("t0")
    models := [{ name := ("A"), mu := 25, sigma := 0, games_played := 1, wins := 0, losses := 0,
                 draws := 0, conservative_rating := 25, avg_total_cost := 0,
                 avg_tokens_per_second := 0 }] }

/-- Concrete well formed tournament result. -/
def tournW : Tournament :=
  { tournament_info := some { timestamp := some ("2024-01-02T03:04:05") },
    contenders := some [("A"), ("B")],
    final_scores := some [(("A"), 1), (("B"), 0)],
    detailed_results := [] }

/-- Concrete empty store. -/
def storeW : Store :=
  { games := [], leaderboard := { last_updated := ("t0"), models := [] } }

/-- The game record `tournW` converts to. -/
def gameW : GameData :=
  (convert_tournament_to_game_format tournW ("dir/t1.json")).getD
    { game_id := none, date := none, participants := none, ranks := none, scores := none,
      performance_metrics := [] }

/-- The id of `gameW`. -/
def gidW : String := gameW.game_id.getD ("")

/-- The store after ingesting `tournW` once. -/
def s1W : Store :=
  (import_tournament_to_leaderboard tournW ("dir/t1.json") false ("n1") storeW).1

/-- Concrete detailed results: two attempts by X (one erroneous), challenges by
Y and X. -/
def rsW : List DetailedResult :=
  [ { solver := ("X"), challenge_creator := ("Y"),
      metrics := { error := false, total_tokens := 100, total_cost := 2, total_time := 4 },
      is_correct := true },
    { solver := ("X"), challenge_creator := ("X"),
      metrics := { error := true, total_tokens := 50, total_cost := 1, total_time := 1 },
      is_correct := false } ]

/-- The aggregate record `rsW` produces for X. -/
def pmW : PMetrics :=
  { total_tokens := 100, total_cost := 2, total_time := 4, total_attempts := 2,
    successful_attempts := 1, challenges_created := 1, own_challenges_solved := 0,
    others_challenges_solved := 1, tokens_per_second := 25, tokens_per_dollar := 50,
    success_rate := 1 / 2 }

/-- The entry for A after processing `gameC8` from the empty leaderboard. -/
def eAc8 : ModelEntry :=
  { name := ("A"), mu := 26, sigma := 25 / 6, games_played := 1, wins := 1, losses := 0,
    draws := 0, conservative_rating := 27 / 2, avg_total_cost := 0,
    avg_tokens_per_second := 0 }

/-- The entry for B after processing `gameC8` from the empty leaderboard. -/
def eBc8 : ModelEntry :=
  { name := ("B"), mu := 25, sigma := 25 / 6, games_played := 1, wins := 0, losses := 1,
    draws := 0, conservative_rating := 25 / 2, avg_total_cost := 0,
    avg_tokens_per_second := 0 }

/-- The models array produced by processing `gameC1` from the empty
leaderboard. -/
def resultC1 : List ModelEntry :=
  [ { name := ("A"), mu := 26, sigma := 25 / 6, games_played := 1, wins := 2, losses := 0,
      draws := 0, conservative_rating := 27 / 2, avg_total_cost := 0,
      avg_tokens_per_second := 0 },
    { name := ("B"), mu := 25, sigma := 25 / 6, games_played := 1, wins := 0, losses := 1,
      draws := 0, conservative_rating := 25 / 2, avg_total_cost := 0,
      avg_tokens_per_second := 0 },
    { name := ("C"), mu := 25, sigma := 25 / 6, games_played := 1, wins := 0, losses := 1,
      draws := 2, conservative_rating := 25 / 2, avg_total_cost := 0,
      avg_tokens_per_second := 0 } ]

theorem stableInsert_perm (before : α → α → Bool) (x : α) (l : List α) :
    (stableInsert before x l).Perm (x :: l) := by
  induction l with
  | nil => simp [stableInsert]
  | cons y ys ih =>
    simp only [stableInsert]
    split
    · exact (ih.cons y).trans (List.Perm.swap x y ys)
    · exact List.Perm.refl _

theorem stableSort_foldl_perm (before : α → α → Bool) :
    ∀ (l acc : List α), (l.foldl (fun a x => stableInsert before x a) acc).Perm (acc ++ l)
  | [], acc => by simp
  | x :: rest, acc => by
    have h1 := stableSort_foldl_perm before rest (stableInsert before x acc)
    have h2 : (stableInsert before x acc ++ rest).Perm (acc ++ x :: rest) :=
      ((stableInsert_perm before x acc).append_right rest).trans List.perm_middle.symm
    simpa using h1.trans h2

theorem stableSort_perm (before : α → α → Bool) (l : List α) :
    (stableSort before l).Perm l := by
  simpa [stableSort] using stableSort_foldl_perm before l []

theorem stableSort_countP (before : α → α → Bool) (p : α → Bool) (l : List α) :
    (stableSort before l).countP p = l.countP p :=
  (stableSort_perm before l).countP_eq p

theorem stableSort_mem (before : α → α → Bool) {x : α} {l : List α} :
    x ∈ stableSort before l ↔ x ∈ l :=
  (stableSort_perm before l).mem_iff

theorem stableSort_length (before : α → α → Bool) (l : List α) :
    (stableSort before l).length = l.length :=
  (stableSort_perm before l).length_eq

theorem stableInsert_pairwise (before : α → α → Bool)
    (htr : ∀ a b c, before a b = true → before b c = true → before a c = true)
    (htot : ∀ a b, before a b = true ∨ before b a = true)
    (x : α) (l : List α) (h : l.Pairwise (fun a b => before a b = true)) :
    (stableInsert before x l).Pairwise (fun a b => before a b = true) := by
  induction l with
  | nil => simp [stableInsert]
  | cons y ys ih =>
    rcases List.pairwise_cons.mp h with ⟨hy, hys⟩
    simp only [stableInsert]
    split
    case isTrue hyx =>
      refine List.pairwise_cons.mpr ⟨?_, ih hys⟩
      intro z hz
      rcases List.mem_cons.mp ((stableInsert_perm before x ys).mem_iff.mp hz) with h1 | h2
      · subst h1; exact hyx
      · exact hy z h2
    case isFalse hyx =>
      have hxy : before x y = true := (htot x y).resolve_right (by simpa using hyx)
      refine List.pairwise_cons.mpr ⟨?_, h⟩
      intro z hz
      rcases List.mem_cons.mp hz with h1 | h2
      · subst h1; exact hxy
      · exact htr x y z hxy (hy z h2)

theorem stableSort_pairwise (before : α → α → Bool)
    (htr : ∀ a b c, before a b = true → before b c = true → before a c = true)
    (htot : ∀ a b, before a b = true ∨ before b a = true)
    (l : List α) :
    (stableSort before l).Pairwise (fun a b => before a b = true) := by
  suffices h : ∀ (l acc : List α), acc.Pairwise (fun a b => before a b = true) →
      (l.foldl (fun a x => stableInsert before x a) acc).Pairwise
        (fun a b => before a b = true) by
    exact h l [] (by simp)
  intro l
  induction l with
  | nil => intro acc hacc; simpa using hacc
  | cons x rest ih =>
    intro acc hacc
    exact ih (stableInsert before x acc) (stableInsert_pairwise before htr htot x acc hacc)

theorem sortByScoreDesc_pairwise (scores : List (String × Int)) :
    (sortByScoreDesc scores).Pairwise (fun a b => b.2 ≤ a.2) := by
  have h := stableSort_pairwise (fun y x : String × Int => decide (x.2 ≤ y.2))
    (fun a b c h1 h2 => by
      simp only [decide_eq_true_eq] at h1 h2 ⊢
      exact le_trans h2 h1)
    (fun a b => by
      simp only [decide_eq_true_eq]
      exact le_total b.2 a.2)
    scores
  exact h.imp (fun hab => of_decide_eq_true hab)

theorem assignRanks_eq_map (T : List (String × Int))
    (hs : T.Pairwise (fun a b => b.2 ≤ a.2)) :
    ∀ (l P : List (String × Int)) (prev : Int) (cur : Nat),
      T = P ++ l →
      (P = [] → cur = 0) →
      (∀ x, P.getLast? = some x → x.2 = prev ∧ cur = T.countP (fun y => decide (prev < y.2))) →
      assignRanks P.length prev cur l =
        l.map (fun x => (x.1, T.countP (fun y => decide (x.2 < y.2)))) := by
  intro l
  induction l with
  | nil => intro P prev cur _ _ _; simp [assignRanks]
  | cons hd tl ih =>
    intro P prev cur hT h0 hP
    obtain ⟨p, s⟩ := hd
    rw [hT, List.pairwise_append] at hs
    obtain ⟨hsP, hstl, hcross⟩ := hs
    have htl_le : ∀ b ∈ tl, b.2 ≤ s := (List.pairwise_cons.mp hstl).1
    have hcur1 : (if 0 < P.length ∧ s < prev then P.length else cur) =
        T.countP (fun y => decide (s < y.2)) := by
      by_cases hP0 : P = []
      · subst hP0
        have h00 : cur = 0 := h0 rfl
        simp only [List.length_nil, lt_irrefl, false_and, if_false, h00]
        rw [hT]
        simp only [List.nil_append]
        symm
        rw [List.countP_eq_zero]
        intro y hy
        rcases List.mem_cons.mp hy with rfl | hmem
        · simp
        · simpa using not_lt_of_le (htl_le y hmem)
      · have hPlen : 0 < P.length := List.length_pos.mpr hP0
        have hlastmem : P.getLast hP0 ∈ P := List.getLast_mem hP0
        obtain ⟨hprev_eq, hcur_eq⟩ :=
          hP (P.getLast hP0) (List.getLast?_eq_getLast P hP0)
        have hsle : s ≤ prev := by
          have := hcross (P.getLast hP0) hlastmem (p, s) (List.mem_cons_self _ _)
          simpa [hprev_eq] using this
        by_cases hslt : s < prev
        · simp only [hPlen, hslt, and_self, if_true]
          have hPge : ∀ a ∈ P, prev ≤ a.2 := by
            intro a ha
            have hsplit : P = P.dropLast ++ [P.getLast hP0] :=
              (List.dropLast_append_getLast hP0).symm
            rw [hsplit, List.pairwise_append] at hsP
            rcases List.mem_append.mp (hsplit ▸ ha) with hin | hin
            · have := hsP.2.2 a hin (P.getLast hP0) (List.mem_singleton_self _)
              exact hprev_eq ▸ this
            · rcases List.mem_singleton.mp hin with rfl
              exact le_of_eq hprev_eq.symm
          rw [hT, List.countP_append]
          have hc1 : P.countP (fun y => decide (s < y.2)) = P.length := by
            rw [List.countP_eq_length]
            intro a ha
            exact decide_eq_true (lt_of_lt_of_le hslt (hPge a ha))
          have hc2 : ((p, s) :: tl).countP (fun y => decide (s < y.2)) = 0 := by
            rw [List.countP_eq_zero]
            intro y hy
            rcases List.mem_cons.mp hy with rfl | hmem
            · simp
            · simpa using not_lt_of_le (htl_le y hmem)
          omega
        · have hseq : s = prev := le_antisymm hsle (not_lt.mp hslt)
          simp only [hslt, and_false, if_false]
          rw [hcur_eq, hseq]
    simp only [assignRanks, List.map_cons]
    rw [hcur1]
    congr 1
    have hres := ih (P ++ [(p, s)]) s (T.countP (fun y => decide (s < y.2)))
      (by rw [hT]; simp)
      (by intro hcontra; exact absurd hcontra (by simp))
      (by
        intro x hx
        rw [List.getLast?_concat] at hx
        cases hx
        exact ⟨rfl, rfl⟩)
    simpa using hres

theorem calculate_ranks_eq_map (scores : List (String × Int)) :
    calculate_ranks_from_scores scores =
      (sortByScoreDesc scores).map
        (fun x => (x.1, scores.countP (fun y => decide (x.2 < y.2)))) := by
  have h := assignRanks_eq_map (sortByScoreDesc scores) (sortByScoreDesc_pairwise scores)
    (sortByScoreDesc scores) [] 0 0 rfl (fun _ => rfl) (by simp)
  simp only [List.length_nil] at h
  rw [calculate_ranks_from_scores, h]
  refine List.map_congr_left ?_
  intro x _
  have : (sortByScoreDesc scores).countP (fun y => decide (x.2 < y.2)) =
      scores.countP (fun y => decide (x.2 < y.2)) :=
    stableSort_countP _ _ scores
  rw [this]

theorem assignRanks_getD_zero (l : List (String × Int)) (prev : Int) (hne : l ≠ []) :
    ((assignRanks 0 prev 0 l).getD 0 (("", 0))).2 = 0 := by
  cases l with
  | nil => exact absurd rfl hne
  | cons hd tl =>
    obtain ⟨p, s⟩ := hd
    simp [assignRanks]

theorem assignRanks_getD_succ :
    ∀ (l : List (String × Int)) (i : Nat) (prev : Int) (cur : Nat) (j : Nat),
      j + 1 < l.length →
      ((assignRanks i prev cur l).getD (j + 1) (("", 0))).2 =
        if (l.getD (j + 1) (("", 0))).2 < (l.getD j (("", 0))).2 then i + (j + 1)
        else ((assignRanks i prev cur l).getD j (("", 0))).2 := by
  intro l
  induction l with
  | nil => intro i prev cur j h; simp at h
  | cons hd tl ih =>
    intro i prev cur j h
    obtain ⟨p, s⟩ := hd
    cases j with
    | zero =>
      cases tl with
      | nil => simp at h
      | cons hd2 tl2 =>
        obtain ⟨q, t⟩ := hd2
        simp only [assignRanks, List.getD_cons_succ, List.getD_cons_zero]
        by_cases ht : t < s
        · simp [ht]
        · simp [ht]
    | succ j2 =>
      have h2 : j2 + 1 < tl.length := by simpa using h
      have := ih (i + 1) s (if 0 < i ∧ s < prev then i else cur) j2 h2
      simp only [assignRanks, List.getD_cons_succ]
      rw [this]
      have harith : i + 1 + (j2 + 1) = i + (j2 + 1 + 1) := by omega
      rw [harith]

theorem find?_key_of_nodup {α β : Type} [DecidableEq β] (key : α → β) :
    ∀ (l : List α), (l.map key).Nodup → ∀ x ∈ l, ∀ n, key x = n →
      l.find? (fun a => key a = n) = some x := by
  intro l
  induction l with
  | nil => intro _ x hx; cases hx
  | cons y ys ih =>
    intro h x hx n hn
    simp only [List.map_cons, List.nodup_cons] at h
    rcases List.mem_cons.mp hx with rfl | hmem
    · exact List.find?_cons_of_pos _ (by simp [hn])
    · have hne : ¬(key y = n) := by
        intro he
        exact h.1 (by
          rw [← hn] at he
          exact he ▸ List.mem_map_of_mem key hmem)
      rw [List.find?_cons_of_neg _ (by simpa using hne)]
      exact ih h.2 x hmem n hn

theorem find?_fst_map {β γ : Type} (g : String × β → γ) (l : List (String × β)) (n : String) :
    (l.map (fun x => (x.1, g x))).find? (fun w => w.1 = n) =
      (l.find? (fun x => x.1 = n)).map (fun x => (x.1, g x)) := by
  induction l with
  | nil => rfl
  | cons y ys ih =>
    by_cases h : y.1 = n
    · rw [List.map_cons, List.find?_cons_of_pos _ (by simpa using h),
        List.find?_cons_of_pos _ (by simpa using h)]
      rfl
    · rw [List.map_cons, List.find?_cons_of_neg _ (by simpa using h),
        List.find?_cons_of_neg _ (by simpa using h)]
      exact ih

/-- C3: rank derivation from scores is standard/competition ranking: the
contenders are stably sorted by score descending; the best receives rank 0; a
contender whose score equals the previous sorted contender's score receives the
same rank; a strictly lower score receives a rank equal to its position index
(leaving a gap after a tie group); in particular scores A:90, B:90, C:80 yield
ranks A:0, B:0, C:2. -/
theorem c3_rank_derivation :
    calculate_ranks_from_scores [(("A"), 90), (("B"), 90), (("C"), 80)] =
      [(("A"), 0), (("B"), 0), (("C"), 2)] ∧
    (∀ scores : List (String × Int), scores ≠ [] →
      ((calculate_ranks_from_scores scores).getD 0 (("", 0))).2 = 0) ∧
    (∀ scores : List (String × Int), ∀ j : Nat, j + 1 < (sortByScoreDesc scores).length →
      ((calculate_ranks_from_scores scores).getD (j + 1) (("", 0))).2 =
        if ((sortByScoreDesc scores).getD (j + 1) (("", 0))).2 <
            ((sortByScoreDesc scores).getD j (("", 0))).2 then j + 1
        else ((calculate_ranks_from_scores scores).getD j (("", 0))).2) := by
  refine ⟨by decide, ?_, ?_⟩
  · intro scores hne
    have hlen : sortByScoreDesc scores ≠ [] := by
      intro hc
      have := stableSort_length (fun y x : String × Int => decide (x.2 ≤ y.2)) scores
      rw [show sortByScoreDesc scores = stableSort (fun y x => decide (x.2 ≤ y.2)) scores
        from rfl] at hc
      rw [hc] at this
      exact hne (List.length_eq_zero.mp this.symm)
    exact assignRanks_getD_zero (sortByScoreDesc scores) 0 hlen
  · intro scores j hj
    have h := assignRanks_getD_succ (sortByScoreDesc scores) 0 0 0 j hj
    simpa [calculate_ranks_from_scores] using h

theorem c3_witness :
    (0 + 1 < (sortByScoreDesc [(("A"), (90 : Int)), (("B"), 90), (("C"), 80)]).length) ∧
    ((calculate_ranks_from_scores [(("A"), (90 : Int)), (("B"), 90), (("C"), 80)]).getD
        (0 + 1) (("", 0))).2 =
      if ((sortByScoreDesc [(("A"), (90 : Int)), (("B"), 90), (("C"), 80)]).getD
            (0 + 1) (("", 0))).2 <
          ((sortByScoreDesc [(("A"), (90 : Int)), (("B"), 90), (("C"), 80)]).getD
            0 (("", 0))).2 then 0 + 1
      else ((calculate_ranks_from_scores [(("A"), (90 : Int)), (("B"), 90), (("C"), 80)]).getD
            0 (("", 0))).2 :=
  ⟨by decide, c3_rank_derivation.2.2 _ 0 (by decide)⟩

/-- C10: for every score mapping (with distinct participant names, as dict keys
are), each participant's rank equals the number of participants with a strictly
greater score; hence every rank lies in [0, n-1], some participant has rank 0,
and equal scores receive equal ranks. -/
theorem c10_rank_counts (scores : List (String × Int))
    (hnd : (scores.map (fun x => x.1)).Nodup) :
    (∀ x ∈ scores, lookupRank (calculate_ranks_from_scores scores) x.1 =
        some (scores.countP (fun y => decide (x.2 < y.2)))) ∧
    (∀ pr ∈ calculate_ranks_from_scores scores, pr.2 < scores.length) ∧
    (scores ≠ [] → ∃ pr ∈ calculate_ranks_from_scores scores, pr.2 = 0) ∧
    (∀ x ∈ scores, ∀ y ∈ scores, x.2 = y.2 →
      lookupRank (calculate_ranks_from_scores scores) x.1 =
        lookupRank (calculate_ranks_from_scores scores) y.1) := by
  have hperm : (sortByScoreDesc scores).Perm scores :=
    stableSort_perm (fun y x : String × Int => decide (x.2 ≤ y.2)) scores
  have hndsorted : ((sortByScoreDesc scores).map (fun x => x.1)).Nodup :=
    ((hperm.map (fun x => x.1)).nodup_iff).mpr hnd
  have hmain : ∀ x ∈ scores, lookupRank (calculate_ranks_from_scores scores) x.1 =
      some (scores.countP (fun y => decide (x.2 < y.2))) := by
    intro x hx
    have hxs : x ∈ sortByScoreDesc scores := (stableSort_mem _).mpr hx
    rw [lookupRank, calculate_ranks_eq_map,
      find?_fst_map (fun z => scores.countP (fun y => decide (z.2 < y.2)))
        (sortByScoreDesc scores) x.1,
      find?_key_of_nodup (fun a => a.1) (sortByScoreDesc scores) hndsorted x hxs x.1 rfl]
    rfl
  refine ⟨hmain, ?_, ?_, ?_⟩
  · intro pr hpr
    rw [calculate_ranks_eq_map] at hpr
    obtain ⟨x, hxs, rfl⟩ := List.mem_map.mp hpr
    have hx : x ∈ scores := (stableSort_mem _).mp hxs
    have hsplit := List.length_eq_countP_add_countP (fun y => decide (x.2 < y.2)) scores
    have hpos : 0 < scores.countP (fun a => decide ¬(decide (x.2 < a.2)) = true) := by
      rw [List.countP_pos_iff]
      exact ⟨x, hx, by simp⟩
    simp only []
    omega
  · intro hne
    have hsne : sortByScoreDesc scores ≠ [] := by
      intro hc
      have hlen : (sortByScoreDesc scores).length = scores.length :=
        stableSort_length (fun y x : String × Int => decide (x.2 ≤ y.2)) scores
      rw [hc] at hlen
      exact hne (List.length_eq_zero.mp hlen.symm)
    obtain ⟨z, rest, hL⟩ := List.exists_cons_of_ne_nil hsne
    refine ⟨(z.1, scores.countP (fun y => decide (z.2 < y.2))), ?_, ?_⟩
    · rw [calculate_ranks_eq_map]
      exact List.mem_map.mpr ⟨z, hL ▸ List.mem_cons_self z rest, rfl⟩
    · have hpair := sortByScoreDesc_pairwise scores
      rw [hL, List.pairwise_cons] at hpair
      have hcnt : (sortByScoreDesc scores).countP (fun y => decide (z.2 < y.2)) = 0 := by
        rw [List.countP_eq_zero]
        intro y hy
        rw [hL] at hy
        rcases List.mem_cons.mp hy with rfl | hmem
        · simp
        · simpa using not_lt_of_le (hpair.1 y hmem)
      have := stableSort_countP (fun y x : String × Int => decide (x.2 ≤ y.2))
        (fun y => decide (z.2 < y.2)) scores
      simp only []
      rw [show scores.countP (fun y => decide (z.2 < y.2)) =
        (sortByScoreDesc scores).countP (fun y => decide (z.2 < y.2)) from this.symm, hcnt]
  · intro x hx y hy hxy
    rw [hmain x hx, hmain y hy, hxy]

theorem c10_witness :
    (([(("A"), (90 : Int)), (("B"), 90), (("C"), 80)].map
        (fun x : String × Int => x.1)).Nodup) ∧
    lookupRank (calculate_ranks_from_scores [(("A"), (90 : Int)), (("B"), 90), (("C"), 80)])
        ("C") =
      some ([(("A"), (90 : Int)), (("B"), 90), (("C"), 80)].countP
        (fun y => decide ((80 : Int) < y.2))) :=
  ⟨by decide, (c10_rank_counts _ (by decide)).1 ((("C"), 80)) (by decide)⟩

/-- C2: evaluating the code at the spec's own test vector: the entry has
games_played = 2 and avg_total_cost = 10 and the game's cost sample is 16, yet
the updated average is 23/2 = 11.5, not the 12 the claim states, because
`update_ratings_from_game` increments `games_played` (line 91) before calling
`_update_performance_metrics` (line 107), while that method's own comment says
the increment happens after the call. -/
theorem c2_running_average_code_behavior :
    ((update_models [entryC2] gameC2).toOption.bind
        (fun ms => (findModel ms ("A")).map (fun m => m.avg_total_cost))) = some (23 / 2) ∧
    ((23 : ℚ) / 2 ≠ 12) := by
  constructor
  · with_unfolding_all decide
  · with_unfolding_all decide

/-- C5 counterexample: a record whose `scores` array has a different length
from `participants` (1 participant, 2 scores) passes `validate_game_data`,
contradicting the claim that such records are rejected by validation. -/
theorem c5_counterexample :
    validate_game_data
      { game_id := none, date := none, participants := some [("A")], ranks := some [0],
        scores := some [1, 2], performance_metrics := [] } = true := by
  decide

/-- C1 counterexample: processing the 3-way game with ranks [0, 1, 1] from an
empty leaderboard, the first rank-1 participant (B) ends with 0 wins, 1 loss
and 0 draws and the second (C) with 0 wins, 1 loss and 2 draws — refuting both
the claim's general draw rule (each should gain exactly 1 draw) and its
example (+1 win, +1 draw, 0 losses for each rank-1 participant). -/
theorem c1_counterexample :
    ((update_models [] gameC1).toOption.bind
        (fun ms => (findModel ms ("B")).map (fun m => (m.wins, m.losses, m.draws)))) =
      some (0, 1, 0) ∧
    ((update_models [] gameC1).toOption.bind
        (fun ms => (findModel ms ("C")).map (fun m => (m.wins, m.losses, m.draws)))) =
      some (0, 1, 2) ∧
    ((update_models [] gameC1).toOption.bind
        (fun ms => (findModel ms ("B")).map (fun m => (m.wins, m.losses, m.draws)))) ≠
      some (1, 0, 1) := by
  refine ⟨?_, ?_, ?_⟩
  · with_unfolding_all decide
  · with_unfolding_all decide
  · with_unfolding_all decide

theorem update_performance_metrics_shape (e : ModelEntry) (name : String) (game : GameData) :
    ∃ c s, update_performance_metrics e name game =
      { e with avg_total_cost := c, avg_tokens_per_second := s } := by
  rw [update_performance_metrics]
  split
  · exact ⟨e.avg_total_cost, e.avg_tokens_per_second, rfl⟩
  · simp only []
    split
    · exact ⟨_, _, rfl⟩
    · exact ⟨_, _, rfl⟩

theorem applyGameToEntry_shape (rs : List Int) (i : Nat) (rank : Int) (nr : ℚ × ℚ)
    (game : GameData) (name : String) (e : ModelEntry) :
    ∃ c s, applyGameToEntry rs i rank nr game name e =
      { e with
        mu := nr.1
        sigma := nr.2
        games_played := e.games_played + 1
        wins := e.wins + rs.countP (fun r => decide (rank < r))
        losses := e.losses + rs.countP (fun r => decide (r < rank))
        draws := e.draws + rs.countP (fun r => r == rank && decide (rs.indexOf r ≠ i))
        conservative_rating := nr.1 - 3 * nr.2
        avg_total_cost := c
        avg_tokens_per_second := s } := by
  rw [applyGameToEntry]
  exact update_performance_metrics_shape _ name game

theorem applyGameToEntry_name (rs : List Int) (i : Nat) (rank : Int) (nr : ℚ × ℚ)
    (game : GameData) (name : String) (e : ModelEntry) :
    (applyGameToEntry rs i rank nr game name e).name = e.name := by
  obtain ⟨c, s, h⟩ := applyGameToEntry_shape rs i rank nr game name e
  rw [h]

theorem applyGameToEntry_conservative (rs : List Int) (i : Nat) (rank : Int) (nr : ℚ × ℚ)
    (game : GameData) (name : String) (e : ModelEntry) :
    (applyGameToEntry rs i rank nr game name e).conservative_rating =
      (applyGameToEntry rs i rank nr game name e).mu -
        3 * (applyGameToEntry rs i rank nr game name e).sigma := by
  obtain ⟨c, s, h⟩ := applyGameToEntry_shape rs i rank nr game name e
  rw [h]

theorem updateFirst_find_self (f : ModelEntry → ModelEntry) (name : String)
    (hf : ∀ x, (f x).name = x.name) :
    ∀ l, findModel (updateFirst f name l) name = (findModel l name).map f := by
  intro l
  induction l with
  | nil => rfl
  | cons m ms ih =>
    by_cases h : m.name = name
    · rw [updateFirst, if_pos h, findModel, List.find?_cons_of_pos _ (by simp [hf m, h]),
        findModel, List.find?_cons_of_pos _ (by simp [h])]
      rfl
    · rw [updateFirst, if_neg h, findModel, List.find?_cons_of_neg _ (by simpa using h),
        findModel, List.find?_cons_of_neg _ (by simpa using h)]
      exact ih

theorem updateFirst_find_other (f : ModelEntry → ModelEntry) (name n : String)
    (hf : ∀ x, (f x).name = x.name) (hne : n ≠ name) :
    ∀ l, findModel (updateFirst f name l) n = findModel l n := by
  intro l
  induction l with
  | nil => rfl
  | cons m ms ih =>
    by_cases h : m.name = name
    · rw [updateFirst, if_pos h, findModel,
        List.find?_cons_of_neg _ (by simp [hf m, h]; exact fun hc => hne hc.symm),
        findModel, List.find?_cons_of_neg _ (by simp [h]; exact fun hc => hne hc.symm)]
    · by_cases h2 : m.name = n
      · rw [updateFirst, if_neg h, findModel, List.find?_cons_of_pos _ (by simp [h2]),
          findModel, List.find?_cons_of_pos _ (by simp [h2])]
      · rw [updateFirst, if_neg h, findModel, List.find?_cons_of_neg _ (by simpa using h2),
          findModel, List.find?_cons_of_neg _ (by simpa using h2)]
        exact ih

theorem updateFirst_names (f : ModelEntry → ModelEntry) (name : String)
    (hf : ∀ x, (f x).name = x.name) :
    ∀ l, (updateFirst f name l).map (fun m => m.name) = l.map (fun m => m.name) := by
  intro l
  induction l with
  | nil => rfl
  | cons m ms ih =>
    by_cases h : m.name = name
    · rw [updateFirst, if_pos h, List.map_cons, List.map_cons, hf m]
    · rw [updateFirst, if_neg h, List.map_cons, List.map_cons, ih]

theorem mem_updateFirst (f : ModelEntry → ModelEntry) (name : String) :
    ∀ l m, m ∈ updateFirst f name l → m ∈ l ∨ ∃ x, x ∈ l ∧ m = f x := by
  intro l
  induction l with
  | nil => intro m hm; cases hm
  | cons y ys ih =>
    intro m hm
    by_cases h : y.name = name
    · rw [updateFirst, if_pos h] at hm
      rcases List.mem_cons.mp hm with rfl | hmem
      · exact Or.inr ⟨y, List.mem_cons_self y ys, rfl⟩
      · exact Or.inl (List.mem_cons_of_mem y hmem)
    · rw [updateFirst, if_neg h] at hm
      rcases List.mem_cons.mp hm with rfl | hmem
      · exact Or.inl (List.mem_cons_self m ys)
      · rcases ih m hmem with h1 | ⟨x, hx, rfl⟩
        · exact Or.inl (List.mem_cons_of_mem y h1)
        · exact Or.inr ⟨x, List.mem_cons_of_mem y hx, rfl⟩

theorem any_name_eq (ms : List ModelEntry) (name : String) :
    ms.any (fun m => m.name = name) = (findModel ms name).isSome := by
  induction ms with
  | nil => rfl
  | cons m ms ih =>
    by_cases h : m.name = name
    · rw [List.any_cons, findModel, List.find?_cons_of_pos _ (by simp [h])]
      simp [h]
    · rw [List.any_cons, findModel, List.find?_cons_of_neg _ (by simpa using h)]
      simp only [h, decide_False, Bool.false_or]
      exact ih

theorem findModel_none_iff (ms : List ModelEntry) (name : String) :
    findModel ms name = none ↔ name ∉ ms.map (fun m => m.name) := by
  rw [findModel, List.find?_eq_none]
  simp only [List.mem_map, decide_eq_true_eq]
  constructor
  · rintro h ⟨x, hx, hxn⟩
    exact h x hx hxn
  · intro h x hx hxn
    exact h ⟨x, hx, hxn⟩

theorem findModel_createEntries (ps : List String) :
    ∀ (models : List ModelEntry) (name : String),
      findModel (createEntries models ps) name =
        match findModel models name with
        | some e => some e
        | none => if name ∈ ps then some (defaultEntry name) else none := by
  induction ps with
  | nil =>
    intro models name
    cases h : findModel models name <;> simp [createEntries, h]
  | cons q qs ih =>
    intro models name
    have hstep : createEntries models (q :: qs) =
        createEntries (if models.any (fun m => m.name = q) then models
          else models ++ [defaultEntry q]) qs := rfl
    rw [hstep]
    by_cases hq : (findModel models q).isSome
    · rw [if_pos (by rw [any_name_eq]; exact hq)]
      rw [ih models name]
      cases hn : findModel models name with
      | some e => rfl
      | none =>
        by_cases hnq : name = q
        · subst hnq
          rw [hn] at hq
          simp at hq
        · simp [List.mem_cons, hnq]
    · rw [if_neg (by rw [any_name_eq]; exact hq)]
      rw [ih (models ++ [defaultEntry q]) name]
      have happ : findModel (models ++ [defaultEntry q]) name =
          (findModel models name).or (if q = name then some (defaultEntry q) else none) := by
        rw [findModel, List.find?_append, findModel]
        congr 1
        by_cases hqn : q = name
        · rw [List.find?_cons_of_pos _ (by simp [defaultEntry, hqn]), if_pos hqn]
        · rw [List.find?_cons_of_neg _ (by simp [defaultEntry, hqn]), if_neg hqn]
          rfl
      rw [happ]
      cases hn : findModel models name with
      | some e => rfl
      | none =>
        by_cases hnq : name = q
        · subst hnq
          simp [List.mem_cons]
        · simp [Ne.symm hnq, List.mem_cons, hnq]

theorem findModel_createEntries_mem (ps : List String) (models : List ModelEntry)
    (name : String) (hmem : name ∈ ps) :
    findModel (createEntries models ps) name =
      some ((findModel models name).getD (defaultEntry name)) := by
  rw [findModel_createEntries]
  cases hn : findModel models name with
  | some e => rfl
  | none => simp [hmem]

theorem createEntries_nodup (ps : List String) :
    ∀ models : List ModelEntry, (models.map (fun m => m.name)).Nodup →
      ((createEntries models ps).map (fun m => m.name)).Nodup := by
  induction ps with
  | nil => intro models h; exact h
  | cons q qs ih =>
    intro models h
    have hstep : createEntries models (q :: qs) =
        createEntries (if models.any (fun m => m.name = q) then models
          else models ++ [defaultEntry q]) qs := rfl
    rw [hstep]
    by_cases hq : (findModel models q).isSome
    · rw [if_pos (by rw [any_name_eq]; exact hq)]
      exact ih models h
    · rw [if_neg (by rw [any_name_eq]; exact hq)]
      refine ih _ ?_
      have hout : q ∉ models.map (fun m => m.name) := by
        rw [← findModel_none_iff]
        exact Option.not_isSome_iff_eq_none.mp hq
      rw [List.map_append]
      simp only [List.map_cons, List.map_nil, defaultEntry]
      rw [List.nodup_append]
      refine ⟨h, List.nodup_singleton q, ?_⟩
      intro a ha hb
      rcases List.mem_singleton.mp hb with rfl
      exact hout ha

theorem update_loop_names (game : GameData) (rs : List Int) :
    ∀ (names : List String) (nrs : List (ℚ × ℚ)) (i : Nat) (ms : List ModelEntry),
      (update_loop game rs i names nrs ms).map (fun m => m.name) =
        ms.map (fun m => m.name) := by
  intro names
  induction names with
  | nil => intro nrs i ms; rfl
  | cons name names ih =>
    intro nrs i ms
    cases nrs with
    | nil => rfl
    | cons nr nrs2 =>
      rw [update_loop, ih]
      exact updateFirst_names _ name (fun x => applyGameToEntry_name _ _ _ _ _ _ x) ms

theorem update_loop_find_other (game : GameData) (rs : List Int) :
    ∀ (names : List String) (nrs : List (ℚ × ℚ)) (i : Nat) (ms : List ModelEntry) (n : String),
      n ∉ names → findModel (update_loop game rs i names nrs ms) n = findModel ms n := by
  intro names
  induction names with
  | nil => intro nrs i ms n _; rfl
  | cons name names ih =>
    intro nrs i ms n hn
    rw [List.mem_cons, not_or] at hn
    cases nrs with
    | nil => rfl
    | cons nr nrs2 =>
      rw [update_loop, ih nrs2 (i + 1) _ n hn.2]
      exact updateFirst_find_other _ name n (fun x => applyGameToEntry_name _ _ _ _ _ _ x)
        hn.1 ms

theorem update_loop_find_at (game : GameData) (rs : List Int) :
    ∀ (names : List String) (nrs : List (ℚ × ℚ)) (i : Nat) (ms : List ModelEntry) (j : Nat),
      j < names.length → j < nrs.length → names.Nodup →
      findModel (update_loop game rs i names nrs ms) (names.getD j ("")) =
        (findModel ms (names.getD j (""))).map
          (applyGameToEntry rs (i + j) (rs.getD (i + j) 0) (nrs.getD j (0, 0)) game
            (names.getD j (""))) := by
  intro names
  induction names with
  | nil => intro nrs i ms j hj; simp at hj
  | cons name names ih =>
    intro nrs i ms j hj1 hj2 hnd
    rw [List.nodup_cons] at hnd
    cases nrs with
    | nil => simp at hj2
    | cons nr nrs2 =>
      cases j with
      | zero =>
        simp only [List.getD_cons_zero, Nat.add_zero]
        rw [update_loop, update_loop_find_other game rs names nrs2 (i + 1) _ name hnd.1]
        exact updateFirst_find_self _ name (fun x => applyGameToEntry_name _ _ _ _ _ _ x) ms
      | succ j2 =>
        simp only [List.getD_cons_succ]
        have hj1b : j2 < names.length := by simpa using hj1
        have hne : names.getD j2 ("") ≠ name := by
          have hmem : names.getD j2 ("") ∈ names := by
            rw [List.getD_eq_getElem names ("") hj1b]
            exact List.getElem_mem hj1b
          exact fun hc => hnd.1 (hc ▸ hmem)
        rw [update_loop, ih nrs2 (i + 1) _ j2 hj1b (by simpa using hj2) hnd.2,
          updateFirst_find_other _ name _ (fun x => applyGameToEntry_name _ _ _ _ _ _ x) hne ms]
        have harith : i + 1 + j2 = i + (j2 + 1) := by omega
        rw [harith]

theorem findModel_sortByMuDesc (l : List ModelEntry)
    (hnd : (l.map (fun m => m.name)).Nodup) (n : String) :
    findModel (sortByMuDesc l) n = findModel l n := by
  have hperm : (sortByMuDesc l).Perm l := stableSort_perm _ l
  have hnds : ((sortByMuDesc l).map (fun m => m.name)).Nodup :=
    ((hperm.map (fun m => m.name)).nodup_iff).mpr hnd
  cases hfind : findModel l n with
  | none =>
    rw [findModel, List.find?_eq_none]
    intro x hx
    rw [findModel] at hfind
    exact List.find?_eq_none.mp hfind x (hperm.mem_iff.mp hx)
  | some e =>
    have hmem : e ∈ l := by
      rw [findModel] at hfind
      exact List.mem_of_find?_eq_some hfind
    have hname : e.name = n := by
      rw [findModel] at hfind
      have := List.find?_some hfind
      simpa using this
    exact find?_key_of_nodup (fun m => m.name) (sortByMuDesc l) hnds e
      (hperm.mem_iff.mpr hmem) n hname

theorem env_rate_ok_length (teams : List (ℚ × ℚ)) (ranks : List Int)
    (updated : List (ℚ × ℚ)) (h : env_rate teams ranks = Except.ok updated) :
    updated.length = teams.length := by
  rw [env_rate] at h
  by_cases h1 : (teams.length != ranks.length) = true
  · rw [if_pos h1] at h; cases h
  · rw [if_neg h1] at h
    by_cases h2 : (teams.any fun t => decide (t.2 ≤ 0)) = true
    · rw [if_pos h2] at h; cases h
    · rw [if_neg h2] at h
      have hlen : teams.length = ranks.length := by
        simpa using h1
      cases h
      simp [List.length_zip, hlen]

theorem update_models_ok (models : List ModelEntry) (game : GameData)
    (result : List ModelEntry) (h : update_models models game = Except.ok result) :
    ∃ updated,
      env_rate (teamsFor (createEntries models (game.participants.getD []))
          (game.participants.getD [])) (game.ranks.getD []) = Except.ok updated ∧
      result = sortByMuDesc (update_loop game (game.ranks.getD []) 0
        (game.participants.getD []) updated
        (createEntries models (game.participants.getD []))) ∧
      game.participants.getD [] ≠ [] ∧
      (game.participants.getD []).length = (game.ranks.getD []).length := by
  rw [update_models] at h
  by_cases hval : ((game.participants.getD []).isEmpty || (game.ranks.getD []).isEmpty ||
      (game.participants.getD []).length != (game.ranks.getD []).length) = true
  · rw [if_pos hval] at h; cases h
  · rw [if_neg hval] at h
    simp only [Bool.or_eq_true, not_or] at hval
    obtain ⟨⟨hne1, _⟩, hlen⟩ := hval
    cases henv : env_rate (teamsFor (createEntries models (game.participants.getD []))
        (game.participants.getD [])) (game.ranks.getD []) with
    | error e => rw [henv] at h; cases h
    | ok updated =>
      rw [henv] at h
      cases h
      refine ⟨updated, rfl, rfl, ?_, ?_⟩
      · intro hc
        rw [hc] at hne1
        simp at hne1
      · simpa using hlen

theorem mem_createEntries (ps : List String) :
    ∀ (models : List ModelEntry) (m : ModelEntry), m ∈ createEntries models ps →
      m ∈ models ∨ ∃ n, m = defaultEntry n := by
  induction ps with
  | nil => intro models m hm; exact Or.inl hm
  | cons q qs ih =>
    intro models m hm
    have hstep : createEntries models (q :: qs) =
        createEntries (if models.any (fun m => m.name = q) then models
          else models ++ [defaultEntry q]) qs := rfl
    rw [hstep] at hm
    by_cases hq : (models.any (fun m => m.name = q)) = true
    · rw [if_pos hq] at hm
      exact ih models m hm
    · rw [if_neg hq] at hm
      rcases ih _ m hm with h1 | h2
      · rcases List.mem_append.mp h1 with h3 | h3
        · exact Or.inl h3
        · rcases List.mem_singleton.mp h3 with rfl
          exact Or.inr ⟨q, rfl⟩
      · exact Or.inr h2

theorem update_loop_forall (game : GameData) (rs : List Int) (P : ModelEntry → Prop)
    (hP : ∀ ranks i rank nr name e, P (applyGameToEntry ranks i rank nr game name e)) :
    ∀ (names : List String) (nrs : List (ℚ × ℚ)) (i : Nat) (ms : List ModelEntry),
      (∀ m ∈ ms, P m) → ∀ m ∈ update_loop game rs i names nrs ms, P m := by
  intro names
  induction names with
  | nil => intro nrs i ms hms m hm; exact hms m hm
  | cons name names ih =>
    intro nrs i ms hms m hm
    cases nrs with
    | nil => exact hms m hm
    | cons nr nrs2 =>
      rw [update_loop] at hm
      refine ih nrs2 (i + 1) _ ?_ m hm
      intro x hx
      rcases mem_updateFirst _ name _ x hx with h1 | ⟨y, _, rfl⟩
      · exact hms x h1
      · exact hP _ _ _ _ _ y

/-- C8: the invariant `conservative_rating = mu - 3*sigma` holds for every
entry after every successful leaderboard update, provided it held before:
entries created during the update carry it by construction, entries updated by
the game have it recomputed from the new rating, and untouched entries keep
it.  The field is never written except from the entry's current mu and
sigma. -/
theorem c8_conservative_rating_invariant (lb : Leaderboard) (game : GameData) (now : String)
    (lb2 : Leaderboard)
    (hinv : ∀ m ∈ lb.models, m.conservative_rating = m.mu - 3 * m.sigma)
    (hok : update_ratings_from_game lb game now = Except.ok lb2) :
    ∀ m ∈ lb2.models, m.conservative_rating = m.mu - 3 * m.sigma := by
  rw [update_ratings_from_game] at hok
  cases hum : update_models lb.models game with
  | error e => rw [hum] at hok; cases hok
  | ok ms =>
    rw [hum] at hok
    simp only [Except.map] at hok
    cases hok
    intro m hm
    obtain ⟨updated, henv, hres, hne, hlen⟩ := update_models_ok lb.models game ms hum
    rw [hres] at hm
    have hm2 := (stableSort_mem _).mp hm
    refine update_loop_forall game (game.ranks.getD [])
      (fun m => m.conservative_rating = m.mu - 3 * m.sigma)
      (fun ranks i rank nr name e => applyGameToEntry_conservative ranks i rank nr game name e)
      (game.participants.getD []) updated 0 _ ?_ m hm2
    intro x hx
    rcases mem_createEntries _ lb.models x hx with h1 | ⟨n, rfl⟩
    · exact hinv x h1
    · simp [defaultEntry]

theorem c8_witness :
    (∀ m ∈ (Leaderboard.mk ("t0") []).models, m.conservative_rating = m.mu - 3 * m.sigma) ∧
    eAc8.conservative_rating = eAc8.mu - 3 * eAc8.sigma :=
  ⟨by simp, by
    have h := c8_conservative_rating_invariant (Leaderboard.mk ("t0") []) gameC8 ("t1")
      (Leaderboard.mk ("t1") [eAc8, eBc8]) (by simp) (by with_unfolding_all rfl)
    exact h eAc8 (by simp)⟩

/-- C6: the belief-update call fails when the participants and ranks arrays
have mismatched lengths (the ValueError raised by update_ratings_from_game) or
when some participant's prior sigma is ≤ 0 (the InvalidInput failure of the
rating call, spec-modelled since the trueskill library is external), and on
such a failure the persisted leaderboard is unchanged — the save only happens
at the end of a successful call. -/
theorem c6_invalid_input_no_mutation (lb : Leaderboard) (game : GameData) (now : String)
    (h : (game.participants.getD []).length ≠ (game.ranks.getD []).length ∨
      ∃ name ∈ game.participants.getD [], priorSigma lb.models name ≤ 0) :
    (∃ e, update_ratings_from_game lb game now = Except.error e) ∧
    run_update_on_store lb game now = lb := by
  have herr : ∃ e, update_models lb.models game = Except.error e := by
    rw [update_models]
    by_cases hval : ((game.participants.getD []).isEmpty || (game.ranks.getD []).isEmpty ||
        (game.participants.getD []).length != (game.ranks.getD []).length) = true
    · rw [if_pos hval]
      exact ⟨_, rfl⟩
    · rw [if_neg hval]
      simp only [Bool.or_eq_true, not_or] at hval
      obtain ⟨⟨hne1, hne2⟩, hlen⟩ := hval
      have hleneq : (game.participants.getD []).length = (game.ranks.getD []).length := by
        simpa using hlen
      rcases h with hmis | ⟨name, hmem, hsig⟩
      · exact absurd hleneq hmis
      · have hmem2 : (((findModel lb.models name).getD (defaultEntry name)).mu,
            priorSigma lb.models name) ∈
            teamsFor (createEntries lb.models (game.participants.getD []))
              (game.participants.getD []) := by
          rw [teamsFor]
          refine List.mem_map.mpr ⟨name, hmem, ?_⟩
          rw [findModel_createEntries_mem (game.participants.getD []) lb.models name hmem]
          rfl
        have hany : ((teamsFor (createEntries lb.models (game.participants.getD []))
            (game.participants.getD [])).any (fun t => decide (t.2 ≤ 0))) = true := by
          rw [List.any_eq_true]
          exact ⟨_, hmem2, by simpa using hsig⟩
        have hlen2 : (teamsFor (createEntries lb.models (game.participants.getD []))
            (game.participants.getD [])).length = (game.participants.getD []).length := by
          rw [teamsFor, List.length_map]
        have henv : env_rate (teamsFor (createEntries lb.models (game.participants.getD []))
            (game.participants.getD [])) (game.ranks.getD []) =
            Except.error ("InvalidInput: sigma must be positive") := by
          rw [env_rate, if_neg (by simp [hlen2, hleneq]), if_pos hany]
        rw [henv]
        exact ⟨_, rfl⟩
  obtain ⟨e, he⟩ := herr
  constructor
  · exact ⟨e, by rw [update_ratings_from_game, he]; rfl⟩
  · rw [run_update_on_store, update_ratings_from_game, he]
    rfl

theorem c6_witness :
    ((gameC8.participants.getD []).length ≠ (gameC8.ranks.getD []).length ∨
      ∃ name ∈ gameC8.participants.getD [], priorSigma lbC6.models name ≤ 0) ∧
    ((∃ e, update_ratings_from_game lbC6 gameC8 ("t1") = Except.error e) ∧
      run_update_on_store lbC6 gameC8 ("t1") = lbC6) :=
  ⟨Or.inr ⟨("A"), by decide, by with_unfolding_all decide⟩,
    c6_invalid_input_no_mutation lbC6 gameC8 ("t1")
      (Or.inr ⟨("A"), by decide, by with_unfolding_all decide⟩)⟩

theorem recalc_step_rel (now1 now2 : String) (g : GameData)
    (st1 st2 : Leaderboard × Option Leaderboard)
    (h1 : st1.1.models = st2.1.models)
    (h2 : st1.2.map (fun lb => lb.models) = st2.2.map (fun lb => lb.models)) :
    (recalc_step now1 st1 g).1.models = (recalc_step now2 st2 g).1.models ∧
    (recalc_step now1 st1 g).2.map (fun lb => lb.models) =
      (recalc_step now2 st2 g).2.map (fun lb => lb.models) := by
  rw [recalc_step, recalc_step]
  by_cases hv : validate_game_data g = true
  · rw [if_pos hv, if_pos hv, update_ratings_from_game, update_ratings_from_game, h1]
    cases hum : update_models st2.1.models g with
    | error e => simp only [hum, Except.map]; exact ⟨h1, h2⟩
    | ok ms => simp only [hum, Except.map]; exact ⟨trivial, by simp⟩
  · rw [if_neg hv, if_neg hv]
    exact ⟨h1, h2⟩

/-- C4: the full leaderboard recomputation is deterministic: run over the same
ordered history with any two clock readings (the only varying input), it
produces identical models arrays; only the last_updated stamp can differ. -/
theorem c4_recompute_deterministic (games : List GameData) (now1 now2 : String) :
    (recalculate_leaderboard games now1).map (fun lb => lb.models) =
      (recalculate_leaderboard games now2).map (fun lb => lb.models) := by
  rw [recalculate_leaderboard, recalculate_leaderboard]
  by_cases hg : games.isEmpty = true
  · rw [if_pos hg, if_pos hg]
  · rw [if_neg hg, if_neg hg]
    suffices h : ∀ (l : List GameData) (st1 st2 : Leaderboard × Option Leaderboard),
        st1.1.models = st2.1.models →
        st1.2.map (fun lb => lb.models) = st2.2.map (fun lb => lb.models) →
        ((l.foldl (recalc_step now1) st1).1.models =
          (l.foldl (recalc_step now2) st2).1.models) ∧
        ((l.foldl (recalc_step now1) st1).2.map (fun lb => lb.models) =
          (l.foldl (recalc_step now2) st2).2.map (fun lb => lb.models)) by
      exact (h (sortByDate games) (emptyLeaderboard now1, none)
        (emptyLeaderboard now2, none) rfl rfl).2
    intro l
    induction l with
    | nil => intro st1 st2 ha hb; exact ⟨ha, hb⟩
    | cons g rest ih =>
      intro st1 st2 ha hb
      rw [List.foldl_cons, List.foldl_cons]
      obtain ⟨hc, hd⟩ := recalc_step_rel now1 now2 g st1 st2 ha hb
      exact ih _ _ hc hd

theorem stableInsert_split (before : α → α → Bool) (x : α) (l : List α) :
    ∃ a b, l = a ++ b ∧ stableInsert before x l = a ++ x :: b := by
  induction l with
  | nil => exact ⟨[], [], rfl, rfl⟩
  | cons y ys ih =>
    by_cases h : before y x = true
    · obtain ⟨a, b, h1, h2⟩ := ih
      refine ⟨y :: a, b, ?_, ?_⟩
      · rw [List.cons_append, ← h1]
      · rw [stableInsert, if_pos h, h2, List.cons_append]
    · exact ⟨[], y :: ys, rfl, by rw [stableInsert, if_neg h]; rfl⟩

theorem stableInsert_removal (before : α → α → Bool)
    (htr : ∀ a b c, before a b = true → before b c = true → before a c = true)
    (bad x : α) :
    ∀ (a b : List α), (a ++ bad :: b).Pairwise (fun p q => before p q = true) →
      ∃ a2 b2, stableInsert before x (a ++ bad :: b) = a2 ++ bad :: b2 ∧
        stableInsert before x (a ++ b) = a2 ++ b2 := by
  intro a
  induction a with
  | nil =>
    intro b hp
    simp only [List.nil_append]
    by_cases h : before bad x = true
    · obtain ⟨a2, b2, h1, h2⟩ := stableInsert_split before x b
      refine ⟨[], stableInsert before x b, ?_, rfl⟩
      rw [stableInsert, if_pos h]
      rfl
    · refine ⟨[x], b, ?_, ?_⟩
      · rw [stableInsert, if_neg h]
        rfl
      · cases b with
        | nil => rfl
        | cons y b3 =>
          have hby : before bad y = true := by
            rcases List.pairwise_cons.mp hp with ⟨hbad, _⟩
            exact hbad y (List.mem_cons_self y b3)
          have hyx : ¬before y x = true := fun hc => h (htr bad y x hby hc)
          rw [stableInsert, if_neg hyx]
          rfl
  | cons ha as ih =>
    intro b hp
    rw [List.cons_append] at hp
    rcases List.pairwise_cons.mp hp with ⟨_, hp2⟩
    by_cases h : before ha x = true
    · obtain ⟨a2, b2, h1, h2⟩ := ih b hp2
      refine ⟨ha :: a2, b2, ?_, ?_⟩
      · rw [List.cons_append, stableInsert, if_pos h, h1, List.cons_append]
      · rw [List.cons_append, stableInsert, if_pos h, h2, List.cons_append]
    · refine ⟨x :: ha :: as, b, ?_, ?_⟩
      · rw [List.cons_append, stableInsert, if_neg h]
        rfl
      · rw [List.cons_append, stableInsert, if_neg h]
        rfl

theorem foldl_ins_removal (before : α → α → Bool)
    (htr : ∀ a b c, before a b = true → before b c = true → before a c = true)
    (htot : ∀ a b, before a b = true ∨ before b a = true) (bad : α) :
    ∀ (rest : List α) (a b : List α),
      (a ++ bad :: b).Pairwise (fun p q => before p q = true) →
      ∃ a2 b2,
        rest.foldl (fun acc x => stableInsert before x acc) (a ++ bad :: b) = a2 ++ bad :: b2 ∧
        rest.foldl (fun acc x => stableInsert before x acc) (a ++ b) = a2 ++ b2 := by
  intro rest
  induction rest with
  | nil => intro a b hp; exact ⟨a, b, rfl, rfl⟩
  | cons x rest ih =>
    intro a b hp
    obtain ⟨a2, b2, h1, h2⟩ := stableInsert_removal before htr bad x a b hp
    have hp2 : (a2 ++ bad :: b2).Pairwise (fun p q => before p q = true) := by
      rw [← h1]
      exact stableInsert_pairwise before htr htot x _ hp
    obtain ⟨a3, b3, h3, h4⟩ := ih a2 b2 hp2
    rw [List.foldl_cons, List.foldl_cons, h1, h2]
    exact ⟨a3, b3, h3, h4⟩

theorem stableSort_removal (before : α → α → Bool)
    (htr : ∀ a b c, before a b = true → before b c = true → before a c = true)
    (htot : ∀ a b, before a b = true ∨ before b a = true)
    (h1 h2 : List α) (bad : α) :
    ∃ a b, stableSort before (h1 ++ bad :: h2) = a ++ bad :: b ∧
      stableSort before (h1 ++ h2) = a ++ b := by
  rw [stableSort, stableSort, List.foldl_append, List.foldl_append, List.foldl_cons]
  have hpS : (h1.foldl (fun acc x => stableInsert before x acc) []).Pairwise
      (fun p q => before p q = true) :=
    stableSort_pairwise before htr htot h1
  obtain ⟨a0, b0, hsplit, hins⟩ :=
    stableInsert_split before bad (h1.foldl (fun acc x => stableInsert before x acc) [])
  have hp2 : (a0 ++ bad :: b0).Pairwise (fun p q => before p q = true) := by
    rw [← hins]
    exact stableInsert_pairwise before htr htot bad _ hpS
  obtain ⟨a, b, hA, hB⟩ := foldl_ins_removal before htr htot bad h2 a0 b0 hp2
  rw [hins, hA]
  rw [show h1.foldl (fun acc x => stableInsert before x acc) [] = a0 ++ b0 from hsplit, hB]
  exact ⟨a, b, rfl, rfl⟩

theorem foldl_recalc_skip (now : String) (bad : GameData)
    (hbad : validate_game_data bad = false) (a b : List GameData)
    (st : Leaderboard × Option Leaderboard) :
    (a ++ bad :: b).foldl (recalc_step now) st = (a ++ b).foldl (recalc_step now) st := by
  rw [List.foldl_append, List.foldl_append, List.foldl_cons]
  have hskip : recalc_step now (a.foldl (recalc_step now) st) bad =
      a.foldl (recalc_step now) st := by
    rw [recalc_step, if_neg (by simp [hbad])]
  rw [hskip]

/-- C5: a record missing participants or ranks, or with mismatched
participants/ranks lengths, fails validation and replay skips it (the fold over
the history with the record removed gives the same result, so the store is
untouched by it and processing continues); validation does not examine the
scores field at all, so a record whose scores length mismatches is NOT
rejected. -/
theorem c5_amended_validation_skip :
    (∀ (game : GameData) (ps : List String) (rs : List Int),
      game.participants = some ps → game.ranks = some rs →
      ps.length ≠ rs.length → validate_game_data game = false) ∧
    (∀ (game : GameData) (s : Option (List Int)),
      validate_game_data { game with scores := s } = validate_game_data game) ∧
    (∀ (h1 h2 : List GameData) (bad : GameData) (now : String),
      validate_game_data bad = false →
      recalculate_leaderboard (h1 ++ bad :: h2) now =
        recalculate_leaderboard (h1 ++ h2) now) := by
  refine ⟨?_, ?_, ?_⟩
  · intro game ps rs hps hrs hlen
    rw [validate_game_data, hps, hrs]
    simp [hlen]
  · intro game s
    rfl
  · intro h1 h2 bad now hbad
    rw [recalculate_leaderboard, recalculate_leaderboard]
    rw [if_neg (by simp)]
    by_cases hempty : (h1 ++ h2).isEmpty = true
    · rw [if_pos hempty]
      have h1e : h1 = [] ∧ h2 = [] := by
        simpa [List.isEmpty_iff, List.append_eq_nil] using hempty
      obtain ⟨rfl, rfl⟩ := h1e
      simp only [List.nil_append]
      rw [show sortByDate [bad] = [bad] from rfl, List.foldl_cons, List.foldl_nil,
        recalc_step, if_neg (by simp [hbad])]
    · rw [if_neg hempty]
      obtain ⟨a, b, hA, hB⟩ := stableSort_removal
        (fun y x : GameData => decide ((y.date.getD ("")) ≤ (x.date.getD (""))))
        (fun p q r hpq hqr => by
          simp only [decide_eq_true_eq] at hpq hqr ⊢
          exact le_trans hpq hqr)
        (fun p q => by
          simp only [decide_eq_true_eq]
          exact le_total (p.date.getD ("")) (q.date.getD ("")))
        h1 h2 bad
      rw [sortByDate, sortByDate, hA, hB, foldl_recalc_skip now bad hbad a b]

theorem c5_witness :
    validate_game_data gameC5invalid = false ∧
    recalculate_leaderboard ([] ++ gameC5invalid :: [gameC8]) ("t") =
      recalculate_leaderboard ([] ++ [gameC8]) ("t") :=
  ⟨by decide, c5_amended_validation_skip.2.2 [] [gameC8] gameC5invalid ("t") (by decide)⟩

theorem countP_indexOf_eq (rs : List Int) (rank : Int) (i : Nat) :
    rs.countP (fun r => r == rank && decide (rs.indexOf r ≠ i)) =
      if rs.indexOf rank = i then 0 else rs.count rank := by
  have hcongr : rs.countP (fun r => r == rank && decide (rs.indexOf r ≠ i)) =
      rs.countP (fun r => r == rank && decide (rs.indexOf rank ≠ i)) := by
    apply List.countP_congr
    intro a _
    by_cases h : a = rank
    · subst h; exact Iff.rfl
    · simp [h]
  rw [hcongr]
  by_cases hidx : rs.indexOf rank = i
  · rw [if_pos hidx, List.countP_eq_zero]
    intro a _
    simp [hidx]
  · have hp : (fun r : Int => r == rank && decide (rs.indexOf rank ≠ i)) =
        (fun r : Int => r == rank) := by
      funext r
      simp [hidx]
    rw [if_neg hidx, hp]
    rfl

/-- C1 (amended): for every processed game, the participant at index i with
rank r gains one win for every entry of the ranks array strictly greater than
r and one loss for every entry strictly smaller; its draws increase by 0 when
i is the first index at which the value r occurs in ranks, and otherwise by
the total number of occurrences of r (itself included) — the code's
equal-ranks filter compares `ranks.index(r)`, the first occurrence of the
value, with the participant's index.  Stated for games with distinct
participant names and a leaderboard with distinct entry names (the maintained
situation). -/
theorem c1_amended_pairwise_counts (models : List ModelEntry) (game : GameData)
    (ps : List String) (rs : List Int)
    (hps : game.participants = some ps) (hrs : game.ranks = some rs)
    (hnodup : ps.Nodup) (hmnodup : (models.map (fun m => m.name)).Nodup)
    (result : List ModelEntry) (hok : update_models models game = Except.ok result)
    (i : Nat) (hi : i < ps.length) :
    ∃ e, findModel result (ps.getD i ("")) = some e ∧
      e.wins = ((findModel models (ps.getD i (""))).getD
          (defaultEntry (ps.getD i ("")))).wins +
        rs.countP (fun r => decide (rs.getD i 0 < r)) ∧
      e.losses = ((findModel models (ps.getD i (""))).getD
          (defaultEntry (ps.getD i ("")))).losses +
        rs.countP (fun r => decide (r < rs.getD i 0)) ∧
      e.draws = ((findModel models (ps.getD i (""))).getD
          (defaultEntry (ps.getD i ("")))).draws +
        (if rs.indexOf (rs.getD i 0) = i then 0 else rs.count (rs.getD i 0)) := by
  obtain ⟨updated, henv, hres, hnonempty, hlen⟩ := update_models_ok models game result hok
  rw [hps, Option.getD_some] at henv hres hnonempty
  rw [hps, Option.getD_some, hrs, Option.getD_some] at hlen
  rw [hrs, Option.getD_some] at henv hres
  have hulen : updated.length = ps.length := by
    rw [env_rate_ok_length _ _ _ henv, teamsFor, List.length_map]
  have hnodup1 : ((createEntries models ps).map (fun m => m.name)).Nodup :=
    createEntries_nodup ps models hmnodup
  have hloop := update_loop_find_at game rs ps updated 0 (createEntries models ps) i hi
    (by rw [hulen]; exact hi) hnodup
  simp only [Nat.zero_add] at hloop
  have hmem : ps.getD i ("") ∈ ps := by
    rw [List.getD_eq_getElem ps ("") hi]
    exact List.getElem_mem hi
  have hfind1 : findModel (createEntries models ps) (ps.getD i ("")) =
      some ((findModel models (ps.getD i (""))).getD (defaultEntry (ps.getD i ("")))) :=
    findModel_createEntries_mem ps models _ hmem
  have hnames2 : ((update_loop game rs 0 ps updated
      (createEntries models ps)).map (fun m => m.name)).Nodup := by
    rw [update_loop_names]
    exact hnodup1
  rw [hres, findModel_sortByMuDesc _ hnames2, hloop, hfind1, Option.map_some']
  obtain ⟨c, s, hshape⟩ := applyGameToEntry_shape rs i (rs.getD i 0) (updated.getD i (0, 0))
    game (ps.getD i ("")) ((findModel models (ps.getD i (""))).getD
      (defaultEntry (ps.getD i (""))))
  rw [hshape]
  refine ⟨_, rfl, rfl, rfl, ?_⟩
  simp only []
  rw [countP_indexOf_eq]

theorem c1_witness :
    (2 < ([("A"), ("B"), ("C")] : List String).length) ∧
    (∃ e, findModel resultC1 (([("A"), ("B"), ("C")] : List String).getD 2 ("")) = some e ∧
      e.wins = ((findModel [] (([("A"), ("B"), ("C")] : List String).getD 2 (""))).getD
          (defaultEntry (([("A"), ("B"), ("C")] : List String).getD 2 ("")))).wins +
        ([0, 1, 1] : List Int).countP
          (fun r => decide (([0, 1, 1] : List Int).getD 2 0 < r)) ∧
      e.losses = ((findModel [] (([("A"), ("B"), ("C")] : List String).getD 2 (""))).getD
          (defaultEntry (([("A"), ("B"), ("C")] : List String).getD 2 ("")))).losses +
        ([0, 1, 1] : List Int).countP
          (fun r => decide (r < ([0, 1, 1] : List Int).getD 2 0)) ∧
      e.draws = ((findModel [] (([("A"), ("B"), ("C")] : List String).getD 2 (""))).getD
          (defaultEntry (([("A"), ("B"), ("C")] : List String).getD 2 ("")))).draws +
        (if ([0, 1, 1] : List Int).indexOf (([0, 1, 1] : List Int).getD 2 0) = 2 then 0
         else ([0, 1, 1] : List Int).count (([0, 1, 1] : List Int).getD 2 0))) :=
  ⟨by decide,
    c1_amended_pairwise_counts [] gameC1 [("A"), ("B"), ("C")] [0, 1, 1] rfl rfl
      (by decide) (by decide) resultC1 (by with_unfolding_all rfl) 2 (by decide)⟩

theorem lookupPM_updAssoc_self :
    ∀ (m : List (String × PMetrics)) (k : String) (f : PMetrics → PMetrics),
      lookupPM (updAssoc m k f) k = some (f ((lookupPM m k).getD {})) := by
  intro m
  induction m with
  | nil =>
    intro k f
    rw [updAssoc, lookupPM, List.find?_cons_of_pos _ (by simp)]
    rfl
  | cons kv rest ih =>
    intro k f
    obtain ⟨k1, v⟩ := kv
    by_cases h : k1 = k
    · rw [updAssoc, if_pos h, lookupPM, List.find?_cons_of_pos _ (by simp [h]),
        lookupPM, List.find?_cons_of_pos _ (by simp [h])]
      rfl
    · rw [updAssoc, if_neg h, lookupPM, List.find?_cons_of_neg _ (by simpa using h),
        lookupPM, List.find?_cons_of_neg _ (by simpa using h)]
      exact ih k f

theorem lookupPM_updAssoc_other (k2 : String) :
    ∀ (m : List (String × PMetrics)) (k : String) (f : PMetrics → PMetrics), k2 ≠ k →
      lookupPM (updAssoc m k f) k2 = lookupPM m k2 := by
  intro m
  induction m with
  | nil =>
    intro k f hne
    rw [updAssoc, lookupPM, List.find?_cons_of_neg _ (by simpa using fun hc => hne hc.symm)]
    rfl
  | cons kv rest ih =>
    intro k f hne
    obtain ⟨k1, v⟩ := kv
    by_cases h : k1 = k
    · rw [updAssoc, if_pos h, lookupPM,
        List.find?_cons_of_neg _ (by simp [h]; exact fun hc => hne hc.symm), lookupPM,
        List.find?_cons_of_neg _ (by simp [h]; exact fun hc => hne hc.symm)]
    · by_cases h2 : k1 = k2
      · rw [updAssoc, if_neg h, lookupPM, List.find?_cons_of_pos _ (by simp [h2]),
          lookupPM, List.find?_cons_of_pos _ (by simp [h2])]
      · rw [updAssoc, if_neg h, lookupPM, List.find?_cons_of_neg _ (by simpa using h2),
          lookupPM, List.find?_cons_of_neg _ (by simpa using h2)]
        exact ih k f hne

theorem aggUpdate_fields (r : DetailedResult) (pm0 : PMetrics) :
    (aggUpdate r pm0).total_tokens =
      pm0.total_tokens + (if r.metrics.error = true then 0 else r.metrics.total_tokens) ∧
    (aggUpdate r pm0).total_cost =
      pm0.total_cost + (if r.metrics.error = true then 0 else r.metrics.total_cost) ∧
    (aggUpdate r pm0).total_time =
      pm0.total_time + (if r.metrics.error = true then 0 else r.metrics.total_time) ∧
    (aggUpdate r pm0).total_attempts = pm0.total_attempts + 1 ∧
    (aggUpdate r pm0).successful_attempts =
      pm0.successful_attempts + (if r.is_correct = true then 1 else 0) := by
  rw [aggUpdate]
  by_cases he : r.metrics.error = true
  · simp only [he, Bool.not_true, if_false, Bool.false_eq_true, if_true]
    by_cases hc : r.is_correct = true
    · by_cases ho : r.solver = r.challenge_creator <;> simp [hc, ho, add_zero]
    · simp [hc, add_zero]
  · have he2 : r.metrics.error = false := by
      cases hb : r.metrics.error
      · rfl
      · exact absurd hb he
    simp only [he2, Bool.not_false, if_true, Bool.true_eq_false, if_false]
    by_cases hc : r.is_correct = true
    · by_cases ho : r.solver = r.challenge_creator <;> simp [hc, ho]
    · simp [hc]

theorem sumMetric_cons (proj : RMetrics → ℚ) (p : String) (r : DetailedResult)
    (rest : List DetailedResult) :
    sumMetric proj p (r :: rest) =
      (if (r.solver == p && !r.metrics.error) = true then proj r.metrics else 0) +
        sumMetric proj p rest := by
  rw [sumMetric, sumMetric, List.filter_cons]
  by_cases h : (r.solver == p && !r.metrics.error) = true
  · simp [h]
  · simp [h]

theorem agg_fold_fields (p : String) (hp : p ≠ ("")) :
    ∀ (rs : List DetailedResult) (m : List (String × PMetrics)),
      ((lookupPM (rs.foldl aggStep m) p).getD {}).total_tokens =
        ((lookupPM m p).getD {}).total_tokens + sumMetric (fun x => x.total_tokens) p rs ∧
      ((lookupPM (rs.foldl aggStep m) p).getD {}).total_cost =
        ((lookupPM m p).getD {}).total_cost + sumMetric (fun x => x.total_cost) p rs ∧
      ((lookupPM (rs.foldl aggStep m) p).getD {}).total_time =
        ((lookupPM m p).getD {}).total_time + sumMetric (fun x => x.total_time) p rs ∧
      ((lookupPM (rs.foldl aggStep m) p).getD {}).total_attempts =
        ((lookupPM m p).getD {}).total_attempts + rs.countP (fun r => r.solver == p) ∧
      ((lookupPM (rs.foldl aggStep m) p).getD {}).successful_attempts =
        ((lookupPM m p).getD {}).successful_attempts +
          rs.countP (fun r => r.solver == p && r.is_correct) := by
  intro rs
  induction rs with
  | nil =>
    intro m
    refine ⟨?_, ?_, ?_, ?_, ?_⟩ <;> simp [sumMetric]
  | cons r rest ih =>
    intro m
    rw [List.foldl_cons]
    rw [sumMetric_cons, sumMetric_cons, sumMetric_cons, List.countP_cons, List.countP_cons]
    by_cases hr0 : r.solver = ("")
    · have hstep : aggStep m r = m := by rw [aggStep, if_pos hr0]
      rw [hstep]
      obtain ⟨iht, ihc, ihm, iha, ihs⟩ := ih m
      have hsp : (r.solver == p) = false := by
        rw [hr0]
        simp only [beq_eq_false_iff_ne, ne_eq]
        exact fun hc => hp hc.symm
      refine ⟨?_, ?_, ?_, ?_, ?_⟩ <;> simp [iht, ihc, ihm, iha, ihs, hsp]
    · obtain ⟨iht, ihc, ihm, iha, ihs⟩ := ih (aggStep m r)
      have hstep : aggStep m r = updAssoc m r.solver (aggUpdate r) := by
        rw [aggStep, if_neg hr0]
      by_cases hrp : r.solver = p
      · have hlook : lookupPM (aggStep m r) p =
            some (aggUpdate r ((lookupPM m p).getD {})) := by
          rw [hstep, hrp, lookupPM_updAssoc_self]
        rw [hlook, Option.getD_some] at iht ihc ihm iha ihs
        obtain ⟨ht, hc, hm2, ha, hs⟩ := aggUpdate_fields r ((lookupPM m p).getD {})
        rw [ht] at iht
        rw [hc] at ihc
        rw [hm2] at ihm
        rw [ha] at iha
        rw [hs] at ihs
        have hsp : (r.solver == p) = true := by simp [hrp]
        refine ⟨?_, ?_, ?_, ?_, ?_⟩
        · rw [iht]
          by_cases he : r.metrics.error = true <;> simp [he, hsp] <;> ring
        · rw [ihc]
          by_cases he : r.metrics.error = true <;> simp [he, hsp] <;> ring
        · rw [ihm]
          by_cases he : r.metrics.error = true <;> simp [he, hsp] <;> ring
        · rw [iha]
          simp [hsp]
          omega
        · rw [ihs]
          by_cases hcorr : r.is_correct = true <;> simp [hcorr, hsp] <;> omega
      · have hlook : lookupPM (aggStep m r) p = lookupPM m p := by
          rw [hstep]
          exact lookupPM_updAssoc_other p m r.solver (aggUpdate r) (fun hc => hrp hc.symm)
        rw [hlook] at iht ihc ihm iha ihs
        have hsp : (r.solver == p) = false := by
          simp only [beq_eq_false_iff_ne, ne_eq]
          exact hrp
        refine ⟨?_, ?_, ?_, ?_, ?_⟩ <;> simp [iht, ihc, ihm, iha, ihs, hsp]

theorem creator_fold_fields (p : String) :
    ∀ (cs : List String) (m : List (String × PMetrics)),
      ((lookupPM (cs.foldl (fun m2 c => updAssoc m2 c
          (fun pm => { pm with challenges_created := pm.challenges_created + 1 })) m) p).getD
        {}).total_tokens = ((lookupPM m p).getD {}).total_tokens ∧
      ((lookupPM (cs.foldl (fun m2 c => updAssoc m2 c
          (fun pm => { pm with challenges_created := pm.challenges_created + 1 })) m) p).getD
        {}).total_cost = ((lookupPM m p).getD {}).total_cost ∧
      ((lookupPM (cs.foldl (fun m2 c => updAssoc m2 c
          (fun pm => { pm with challenges_created := pm.challenges_created + 1 })) m) p).getD
        {}).total_time = ((lookupPM m p).getD {}).total_time ∧
      ((lookupPM (cs.foldl (fun m2 c => updAssoc m2 c
          (fun pm => { pm with challenges_created := pm.challenges_created + 1 })) m) p).getD
        {}).total_attempts = ((lookupPM m p).getD {}).total_attempts ∧
      ((lookupPM (cs.foldl (fun m2 c => updAssoc m2 c
          (fun pm => { pm with challenges_created := pm.challenges_created + 1 })) m) p).getD
        {}).successful_attempts = ((lookupPM m p).getD {}).successful_attempts := by
  intro cs
  induction cs with
  | nil => intro m; exact ⟨rfl, rfl, rfl, rfl, rfl⟩
  | cons c cs ih =>
    intro m
    rw [List.foldl_cons]
    obtain ⟨iht, ihc, ihm, iha, ihs⟩ := ih (updAssoc m c
      (fun pm => { pm with challenges_created := pm.challenges_created + 1 }))
    by_cases hcp : c = p
    · subst hcp
      have hlook : lookupPM (updAssoc m c
          (fun pm => { pm with challenges_created := pm.challenges_created + 1 })) c =
          some ((fun pm => { pm with challenges_created := pm.challenges_created + 1 })
            ((lookupPM m c).getD {})) :=
        lookupPM_updAssoc_self m c _
      rw [hlook, Option.getD_some] at iht ihc ihm iha ihs
      exact ⟨iht, ihc, ihm, iha, ihs⟩
    · have hlook := lookupPM_updAssoc_other p m c
        (fun pm => { pm with challenges_created := pm.challenges_created + 1 })
        (fun hc => hcp hc.symm)
      rw [hlook] at iht ihc ihm iha ihs
      exact ⟨iht, ihc, ihm, iha, ihs⟩

/-- C9: per-participant aggregation sums tokens, cost and time over the
participant's attempts while excluding attempts whose metrics carry an error
flag from those three sums only; erroneous attempts still count toward
total_attempts; tokens_per_second, tokens_per_dollar and success_rate are the
simple ratios over those totals and are 0 when the respective denominator is
not positive. -/
theorem c9_performance_aggregation (rs : List DetailedResult) (p : String) (pm : PMetrics)
    (hp : p ≠ ("")) (hfound : lookupPM (aggregate_performance_metrics rs) p = some pm) :
    pm.total_tokens = sumMetric (fun x => x.total_tokens) p rs ∧
    pm.total_cost = sumMetric (fun x => x.total_cost) p rs ∧
    pm.total_time = sumMetric (fun x => x.total_time) p rs ∧
    pm.total_attempts = rs.countP (fun r => r.solver == p) ∧
    pm.successful_attempts = rs.countP (fun r => r.solver == p && r.is_correct) ∧
    pm.tokens_per_second =
      (if 0 < pm.total_time then pm.total_tokens / pm.total_time else 0) ∧
    pm.tokens_per_dollar =
      (if 0 < pm.total_cost then pm.total_tokens / pm.total_cost else 0) ∧
    pm.success_rate = (if 0 < pm.total_attempts then
      (pm.successful_attempts : ℚ) / (pm.total_attempts : ℚ) else 0) := by
  have hagg : aggregate_performance_metrics rs =
      ((creatorsList rs).foldl (fun m2 c => updAssoc m2 c
        (fun pm => { pm with challenges_created := pm.challenges_created + 1 }))
        (rs.foldl aggStep [])).map (fun x => (x.1, deriveMetrics x.2)) := rfl
  rw [hagg, lookupPM, find?_fst_map (fun x => deriveMetrics x.2)] at hfound
  cases hM2 : ((creatorsList rs).foldl (fun m2 c => updAssoc m2 c
      (fun pm => { pm with challenges_created := pm.challenges_created + 1 }))
      (rs.foldl aggStep [])).find? (fun x => x.1 = p) with
  | none => rw [hM2] at hfound; cases hfound
  | some x0 =>
    rw [hM2] at hfound
    simp only [Option.map_some'] at hfound
    have hpm : pm = deriveMetrics x0.2 := by
      cases hfound
      rfl
    have hlook0 : lookupPM ((creatorsList rs).foldl (fun m2 c => updAssoc m2 c
        (fun pm => { pm with challenges_created := pm.challenges_created + 1 }))
        (rs.foldl aggStep [])) p = some x0.2 := by
      rw [lookupPM, hM2]
      rfl
    obtain ⟨ht1, hc1, hm1, ha1, hs1⟩ :=
      creator_fold_fields p (creatorsList rs) (rs.foldl aggStep [])
    obtain ⟨ht2, hc2, hm2, ha2, hs2⟩ := agg_fold_fields p hp rs []
    rw [hlook0, Option.getD_some] at ht1 hc1 hm1 ha1 hs1
    have hz : lookupPM [] p = none := rfl
    rw [hz] at ht2 hc2 hm2 ha2 hs2
    simp only [Option.getD_none] at ht2 hc2 hm2 ha2 hs2
    have htok : x0.2.total_tokens = sumMetric (fun x => x.total_tokens) p rs := by
      rw [ht1, ht2]
      simp
    have hcost : x0.2.total_cost = sumMetric (fun x => x.total_cost) p rs := by
      rw [hc1, hc2]
      simp
    have htime : x0.2.total_time = sumMetric (fun x => x.total_time) p rs := by
      rw [hm1, hm2]
      simp
    have hatt : x0.2.total_attempts = rs.countP (fun r => r.solver == p) := by
      rw [ha1, ha2]
      simp
    have hsucc : x0.2.successful_attempts =
        rs.countP (fun r => r.solver == p && r.is_correct) := by
      rw [hs1, hs2]
      simp
    subst hpm
    exact ⟨htok, hcost, htime, hatt, hsucc, rfl, rfl, rfl⟩

theorem c9_witness :
    (("X") : String) ≠ ("") ∧
    (pmW.total_tokens = sumMetric (fun x => x.total_tokens) ("X") rsW ∧
      pmW.total_cost = sumMetric (fun x => x.total_cost) ("X") rsW ∧
      pmW.total_time = sumMetric (fun x => x.total_time) ("X") rsW ∧
      pmW.total_attempts = rsW.countP (fun r => r.solver == ("X")) ∧
      pmW.successful_attempts = rsW.countP (fun r => r.solver == ("X") && r.is_correct) ∧
      pmW.tokens_per_second =
        (if 0 < pmW.total_time then pmW.total_tokens / pmW.total_time else 0) ∧
      pmW.tokens_per_dollar =
        (if 0 < pmW.total_cost then pmW.total_tokens / pmW.total_cost else 0) ∧
      pmW.success_rate = (if 0 < pmW.total_attempts then
        (pmW.successful_attempts : ℚ) / (pmW.total_attempts : ℚ) else 0)) :=
  ⟨by decide, c9_performance_aggregation rsW ("X") pmW (by decide)
    (by with_unfolding_all decide)⟩

theorem save_game_file_absent (gid : String) (g : GameData) :
    ∀ games, check_game_exists gid games = false →
      save_game_file games gid g = games ++ [(gid, g)] := by
  intro games
  induction games with
  | nil => intro _; rfl
  | cons kv rest ih =>
    intro h
    obtain ⟨k, v⟩ := kv
    rw [check_game_exists] at h
    by_cases hk : k = gid
    · rw [List.find?_cons_of_pos _ (by simp [hk])] at h
      simp at h
    · rw [List.find?_cons_of_neg _ (by simpa using hk)] at h
      rw [save_game_file, if_neg hk, List.cons_append, ih h]

theorem check_append_self (gid : String) (g : GameData) (games : List (String × GameData)) :
    check_game_exists gid (games ++ [(gid, g)]) = true := by
  rw [check_game_exists, List.find?_append]
  cases h : games.find? (fun x => x.1 = gid) with
  | some x => rfl
  | none =>
    rw [List.find?_cons_of_pos _ (by simp)]
    rfl

theorem import_notexists (t : Tournament) (file now : String) (s : Store)
    (game : GameData) (gid : String)
    (hv : (validate_tournament_data t).1 = true)
    (hconv : convert_tournament_to_game_format t file = some game)
    (hgid : game.game_id = some gid)
    (hnew : check_game_exists gid s.games = false) :
    import_tournament_to_leaderboard t file false now s =
      match update_ratings_from_game s.leaderboard game now with
      | Except.ok lb => ({ games := save_game_file s.games gid game, leaderboard := lb }, true)
      | Except.error _ =>
          ({ games := save_game_file s.games gid game, leaderboard := s.leaderboard }, false) := by
  rw [import_tournament_to_leaderboard, if_neg (by simp [hv]), hconv]
  dsimp only
  rw [hgid]
  dsimp only
  rw [if_neg (by simp [hnew])]

theorem import_exists_skip (t : Tournament) (file now : String) (s : Store)
    (game : GameData) (gid : String)
    (hv : (validate_tournament_data t).1 = true)
    (hconv : convert_tournament_to_game_format t file = some game)
    (hgid : game.game_id = some gid)
    (hex : check_game_exists gid s.games = true) :
    import_tournament_to_leaderboard t file false now s = (s, true) := by
  rw [import_tournament_to_leaderboard, if_neg (by simp [hv]), hconv]
  dsimp only
  rw [hgid]
  dsimp only
  rw [if_pos (by simp [hex])]

/-- C7: the generated game id is a deterministic function of the contest
timestamp and the source file's basename (same file name, from any path, gives
the same id), and ingesting the same tournament file a second time without the
force flag is a no-op: after the first ingestion the store holds exactly one
record with the generated id and the second call returns the store
unchanged. -/
theorem c7_idempotent_ingestion :
    (∀ ts f g : String, basename f = basename g →
      generate_game_id ts f = generate_game_id ts g) ∧
    (∀ (t : Tournament) (file now1 now2 : String) (s0 : Store) (game : GameData) (gid : String),
      (validate_tournament_data t).1 = true →
      convert_tournament_to_game_format t file = some game →
      game.game_id = some gid →
      check_game_exists gid s0.games = false →
      import_tournament_to_leaderboard t file false now2
          ((import_tournament_to_leaderboard t file false now1 s0).1) =
        ((import_tournament_to_leaderboard t file false now1 s0).1, true) ∧
      ((import_tournament_to_leaderboard t file false now1 s0).1).games.countP
        (fun x => x.1 = gid) = 1) := by
  constructor
  · intro ts f g h
    rw [generate_game_id, generate_game_id, h]
  · intro t file now1 now2 s0 game gid hv hconv hgid hnew
    have hs1 := import_notexists t file now1 s0 game gid hv hconv hgid hnew
    have hsave := save_game_file_absent gid game s0.games hnew
    have hgames1 : (import_tournament_to_leaderboard t file false now1 s0).1.games =
        s0.games ++ [(gid, game)] := by
      rw [hs1]
      rcases hup : update_ratings_from_game s0.leaderboard game now1 with e | lb
      · dsimp only
        rw [hsave]
      · dsimp only
        rw [hsave]
    constructor
    · apply import_exists_skip t file now2 _ game gid hv hconv hgid
      rw [hgames1]
      exact check_append_self gid game s0.games
    · rw [hgames1, List.countP_append]
      have h0 : s0.games.countP (fun x => x.1 = gid) = 0 := by
        rw [check_game_exists] at hnew
        have hfind : s0.games.find? (fun x => x.1 = gid) = none :=
          Option.not_isSome_iff_eq_none.mp (by simp [hnew])
        rw [List.countP_eq_zero]
        intro a ha
        exact List.find?_eq_none.mp hfind a ha
      rw [h0]
      simp

theorem c7_witness :
    (validate_tournament_data tournW).1 = true ∧
    convert_tournament_to_game_format tournW ("dir/t1.json") = some gameW ∧
    gameW.game_id = some gidW ∧
    check_game_exists gidW storeW.games = false ∧
    (import_tournament_to_leaderboard tournW ("dir/t1.json") false ("n2") s1W = (s1W, true) ∧
      s1W.games.countP (fun x => x.1 = gidW) = 1) :=
  ⟨by with_unfolding_all decide, by with_unfolding_all decide, by with_unfolding_all decide,
    by with_unfolding_all decide,
    c7_idempotent_ingestion.2 tournW ("dir/t1.json") ("n1") ("n2") storeW gameW gidW
      (by with_unfolding_all decide) (by with_unfolding_all decide)
      (by with_unfolding_all decide) (by with_unfolding_all decide)⟩
